import Mathlib

/-!
# Bounded string operations of `htssafe.h` (HTTrack 3.48.6)

A shallow embedding of `strlen_safe_`, `strncat_safe_`, `strcpy_safe_` and of the
fatal assertion macros they are built from.

Conventions of the embedding.

* A `char` is a `Nat`; only the comparison with the terminator `0` matters.
* A pointer is an `Option (List Nat)`: `none` is `NULL`, `some s` points at the first
  byte of an object whose bytes are `s`.  `s.length` is the real extent of the object,
  which the C functions never see: they only get the `sizeof_...` arguments.
* The destination and the source are two objects: the source is a value that no
  write to the destination can change (overlapping arguments are outside the model).
* `size_t` is `w` bits wide; the one addition of the source is reduced modulo `2 ^ w`
  and `(size_t) -1` is `2 ^ w - 1`.
* An access outside an object (or through `NULL`) is undefined behaviour and ends the
  run with the outcome `ub`.
* `abortf_` never returns; a run that reaches it ends with the outcome `fatal`, which
  records the three arguments handed to `abortf_`.
-/

namespace Htssafe

/-- The three arguments of one `abortf_(exp, file, line)` call. -/
structure Diag where
  exp : String
  file : String
  line : Int
  deriving DecidableEq, Repr

/-- What `abortf_` does to the outside world, in order. -/
inductive Effect where
  | callback (msg file : String) (line : Int)
  | fprintf_stderr (text : String)
  | fflush_stderr
  | abort
  deriving DecidableEq, Repr

/-- `HTSSAFE_ABORT_FUNCTION(A,B,C)`: `if (htsCallbackErr != NULL) htsCallbackErr(A,B,C)`.
The flag says whether a callback is installed. -/
def HTSSAFE_ABORT_FUNCTION (htsCallbackErr : Bool) (A B : String) (C : Int) : List Effect :=
  if htsCallbackErr then [Effect.callback A B C] else []

/-- `log_abort_`: `fprintf(stderr, "%s failed at %s:%d\n", msg, file, line); fflush(stderr);` -/
def log_abort_ (msg file : String) (line : Int) : List Effect :=
  [Effect.fprintf_stderr (msg ++ " failed at " ++ file ++ ":" ++ toString line ++ "\n"),
   Effect.fflush_stderr]

/-- `abortf_`: the callback (when installed), the log line, then `abort()`. -/
def abortf_ (htsCallbackErr : Bool) (exp file : String) (line : Int) : List Effect :=
  HTSSAFE_ABORT_FUNCTION htsCallbackErr exp file line ++ log_abort_ exp file line ++ [Effect.abort]

/-- `assertf__(exp, sexp, file, line)` is `(void) ((exp) || (abortf_(sexp, file, line), 0))`.
`none`: the condition held, control goes on.  `some d`: `abortf_` was entered with `d`. -/
def assertf__ (exp : Bool) (sexp file : String) (line : Int) : Option Diag :=
  if exp then none else some ⟨sexp, file, line⟩

/-- The expansion of `__FILE__` inside `htssafe.h`. -/
def FILE_htssafe_h : String := "htssafe.h"

/-- `assertf_(exp, file, line)` is `assertf__(exp, #exp, __FILE__, __LINE__)`: the macro
drops its `file` and `line` arguments and reports its own place in `htssafe.h`.
`sexp` is the text `#exp`, `here` the value of `__LINE__` at the use. -/
def assertf_ (exp : Bool) (sexp : String) (here : Int) (_file : String) (_line : Int) :
    Option Diag :=
  assertf__ exp sexp FILE_htssafe_h here

/-- Result of a function that only reads memory. -/
inductive Ret (α : Type) where
  | ok (a : α)
  | fatal (d : Diag)
  | ub
  deriving DecidableEq, Repr

/-- Result of a function that writes to the destination.  `ok m`: it returned, the
destination object now holds `m`.  `fatal m d`: `abortf_` was reached with `d` while the
destination (a pointer, maybe `NULL`) held `m`. -/
inductive Outcome where
  | ok (dest : List Nat)
  | fatal (dest : Option (List Nat)) (d : Diag)
  | ub
  deriving DecidableEq, Repr

/-- C library `strnlen(s, maxlen)`: the offset of the first terminator among the first
`maxlen` bytes, `maxlen` when there is none.  Bytes are read in order and reading stops
at the terminator; `none` when a byte outside the object would be read. -/
def strnlen : List Nat → Nat → Option Nat
  | _, 0 => some 0
  | [], _ + 1 => none
  | c :: cs, m + 1 => if c = 0 then some 0 else (strnlen cs m).map (· + 1)

/-- C library `memcpy(dest + off, src, k)` for a source that does not overlap the
destination: byte `i` of `src` is stored at offset `off + i`, for `i < k`, in order.
`none` when a byte outside either object would be touched. -/
def memcpy : List Nat → Nat → List Nat → Nat → Option (List Nat)
  | dest, _, _, 0 => some dest
  | _, _, [], _ + 1 => none
  | dest, off, c :: cs, k + 1 =>
    if off < dest.length then memcpy (dest.set off c) (off + 1) cs k else none

/-- `strlen_safe_` (htssafe.h lines 135-142). -/
def strlen_safe_ (source : Option (List Nat)) (sizeof_source : Nat)
    (file : String) (line : Int) : Ret Nat :=
  match assertf_ source.isSome "source != NULL" 138 file line with
  | some d => Ret.fatal d
  | none =>
    match source with
    | none => Ret.ub
    | some s =>
      match strnlen s sizeof_source with
      | none => Ret.ub
      | some size =>
        match assertf_ (decide (size < sizeof_source)) "size < sizeof_source" 140 file line with
        | some d => Ret.fatal d
        | none => Ret.ok size

/-- `strncat_safe_` (htssafe.h lines 144-156). -/
def strncat_safe_ (w : Nat) (dest : Option (List Nat)) (sizeof_dest : Nat)
    (source : Option (List Nat)) (sizeof_source : Nat) (n : Nat)
    (exp file : String) (line : Int) : Outcome :=
  match strlen_safe_ source sizeof_source file line with
  | Ret.fatal d => Outcome.fatal dest d
  | Ret.ub => Outcome.ub
  | Ret.ok source_len =>
    match strlen_safe_ dest sizeof_dest file line with
    | Ret.fatal d => Outcome.fatal dest d
    | Ret.ub => Outcome.ub
    | Ret.ok dest_len =>
      let source_copy := if source_len ≤ n then source_len else n
      let dest_final_len := (dest_len + source_copy) % 2 ^ w
      match assertf__ (decide (dest_final_len < sizeof_dest)) exp file line with
      | some d => Outcome.fatal dest d
      | none =>
        match dest, source with
        | some dmem, some smem =>
          match memcpy dmem dest_len smem source_copy with
          | none => Outcome.ub
          | some dmem1 =>
            if dest_final_len < dmem1.length then Outcome.ok (dmem1.set dest_final_len 0)
            else Outcome.ub
        | _, _ => Outcome.ub

/-- `strcpy_safe_` (htssafe.h lines 158-164). -/
def strcpy_safe_ (w : Nat) (dest : Option (List Nat)) (sizeof_dest : Nat)
    (source : Option (List Nat)) (sizeof_source : Nat)
    (exp file : String) (line : Int) : Outcome :=
  match assertf_ (decide (sizeof_dest ≠ 0)) "sizeof_dest != 0" 161 file line with
  | some d => Outcome.fatal dest d
  | none =>
    match dest with
    | none => Outcome.ub
    | some dmem =>
      if 0 < dmem.length then
        strncat_safe_ w (some (dmem.set 0 0)) sizeof_dest source sizeof_source (2 ^ w - 1)
          exp file line
      else Outcome.ub

/-- The content of `s` ends at offset `L`: byte `L` is the terminator and no byte before
it is. -/
def TerminatedAt (s : List Nat) (L : Nat) : Prop :=
  s[L]? = some 0 ∧ ∀ i, i < L → s[i]? ≠ some 0

/-- None of the first `c` bytes of `s` is the terminator. -/
def Unterminated (s : List Nat) (c : Nat) : Prop :=
  ∀ i, i < c → s[i]? ≠ some 0

instance (s : List Nat) (L : Nat) : Decidable (TerminatedAt s L) := by
  unfold TerminatedAt; infer_instance

instance (s : List Nat) (c : Nat) : Decidable (Unterminated s c) := by
  unfold Unterminated; infer_instance

/-- `source_copy` of `strncat_safe_` (htssafe.h line 150):
`source_len <= n ? source_len : n`. -/
def source_copy (source_len n : Nat) : Nat :=
  if source_len ≤ n then source_len else n

/-- `dest_final_len` of `strncat_safe_` (htssafe.h line 151): `dest_len + source_copy`
in `size_t`, that is modulo `2 ^ w`. -/
def dest_final_len (w dest_len source_copy : Nat) : Nat :=
  (dest_len + source_copy) % 2 ^ w

/-- How one use of `assertf__` ends: control returns to the caller, or the process is
ended after the listed effects. -/
inductive Step where
  | returns
  | terminated (effects : List Effect)
  deriving DecidableEq, Repr

/-- One use of `assertf__(exp, sexp, file, line)` with its effects: nothing when the
condition holds, else the effects of `abortf_(sexp, file, line)`, which does not return.
The flag says whether `htsCallbackErr` is installed. -/
def assertf__step (htsCallbackErr : Bool) (exp : Bool) (sexp file : String) (line : Int) :
    Step :=
  match assertf__ exp sexp file line with
  | none => Step.returns
  | some d => Step.terminated (abortf_ htsCallbackErr d.exp d.file d.line)

/-- The types of macro arguments considered: an array `char[n]` (or `const char[n]`) and
a pointer `char *` (or `const char *`). -/
inductive CType where
  | char_array (n : Nat)
  | char_pointer
  deriving DecidableEq, Repr

/-- An argument of a macro: its spelling (what `#A` yields) and its type. -/
structure Arg where
  text : String
  ty : CType
  deriving DecidableEq, Repr

/-- The C operator `sizeof` on these types; `P` is `sizeof(char*)`. -/
def sizeof (P : Nat) : CType → Nat
  | CType.char_array n => n
  | CType.char_pointer => P

/-- `HTS_IS_CHAR_BUFFER(VAR)` (htssafe.h lines 85-91).  With `__GNUC__` it is
`__builtin_types_compatible_p(typeof(VAR), char[])`, true of every array of `char`
whatever its size and false of a pointer; otherwise it is
`sizeof(VAR) != sizeof(char*)`. -/
def HTS_IS_CHAR_BUFFER (gnuc : Bool) (P : Nat) (t : CType) : Bool :=
  if gnuc then
    match t with
    | CType.char_array _ => true
    | CType.char_pointer => false
  else sizeof P t != P

/-- `HTS_IS_NOT_CHAR_BUFFER(VAR)` (htssafe.h line 92). -/
def HTS_IS_NOT_CHAR_BUFFER (gnuc : Bool) (P : Nat) (t : CType) : Bool :=
  !HTS_IS_CHAR_BUFFER gnuc P t

/-- The call a string macro expands to: a C library function without capacity check, or
one of the checked functions of this file with all its size and diagnostic arguments. -/
inductive Dispatch where
  | libc_strncat (n : Nat)
  | libc_strcpy
  | checked_cat (sizeof_dest sizeof_source n : Nat) (exp file : String) (line : Int)
  | checked_cpy (sizeof_dest sizeof_source : Nat) (exp file : String) (line : Int)
  deriving DecidableEq, Repr

/-- The source capacity the macros pass:
`HTS_IS_NOT_CHAR_BUFFER(B) ? (size_t) -1 : sizeof(B)`. -/
def source_capacity (gnuc : Bool) (P w : Nat) (B : CType) : Nat :=
  if HTS_IS_NOT_CHAR_BUFFER gnuc P B then 2 ^ w - 1 else sizeof P B

/-- `strncatbuff(A, B, N)` (htssafe.h lines 99-104), used at `FILE`:`LINE`. -/
def strncatbuff (gnuc : Bool) (P w : Nat) (A B : Arg) (N : Nat) (FILE : String) (LINE : Int) :
    Dispatch :=
  if HTS_IS_NOT_CHAR_BUFFER gnuc P A.ty then Dispatch.libc_strncat N
  else Dispatch.checked_cat (sizeof P A.ty) (source_capacity gnuc P w B.ty) N
    ("overflow while appending '" ++ B.text ++ "' to '" ++ A.text ++ "'") FILE LINE

/-- `strcpybuff(A, B)` (htssafe.h lines 111-116), used at `FILE`:`LINE`. -/
def strcpybuff (gnuc : Bool) (P w : Nat) (A B : Arg) (FILE : String) (LINE : Int) : Dispatch :=
  if HTS_IS_NOT_CHAR_BUFFER gnuc P A.ty then Dispatch.libc_strcpy
  else Dispatch.checked_cpy (sizeof P A.ty) (source_capacity gnuc P w B.ty)
    ("overflow while copying '" ++ B.text ++ "' to '" ++ A.text ++ "'") FILE LINE

/-- `strcatbuff(A, B)` (htssafe.h line 125): `strncatbuff(A, B, (size_t) -1)`. -/
def strcatbuff (gnuc : Bool) (P w : Nat) (A B : Arg) (FILE : String) (LINE : Int) : Dispatch :=
  strncatbuff gnuc P w A B (2 ^ w - 1) FILE LINE

/-- `strlcatbuff(A, B, S)` (htssafe.h lines 130-133): always the checked append, with the
capacity `S` given by the caller. -/
def strlcatbuff (gnuc : Bool) (P w : Nat) (A B : Arg) (S : Nat) (FILE : String) (LINE : Int) :
    Dispatch :=
  Dispatch.checked_cat S (source_capacity gnuc P w B.ty) (2 ^ w - 1)
    ("overflow while copying '" ++ B.text ++ "' to '" ++ A.text ++ "'") FILE LINE

/-- Running the call a macro expanded to, on the memory of its two arguments.  The C
library functions are not part of this file: `none`. -/
def Dispatch.run (w : Nat) (dest source : Option (List Nat)) : Dispatch → Option Outcome
  | Dispatch.libc_strncat _ => none
  | Dispatch.libc_strcpy => none
  | Dispatch.checked_cat sizeof_dest sizeof_source n exp file line =>
    some (strncat_safe_ w dest sizeof_dest source sizeof_source n exp file line)
  | Dispatch.checked_cpy sizeof_dest sizeof_source exp file line =>
    some (strcpy_safe_ w dest sizeof_dest source sizeof_source exp file line)

/-! ## Lemmas on `strnlen` -/

theorem strnlen_le : ∀ (s : List Nat) (m k : Nat), strnlen s m = some k → k ≤ m
  | _, 0, k, h => by
    simp [strnlen] at h
    omega
  | [], _ + 1, _, h => by simp [strnlen] at h
  | c :: cs, m + 1, k, h => by
    by_cases hc : c = 0
    · simp [strnlen, hc] at h
      omega
    · simp only [strnlen, hc, if_false, Option.map_eq_some'] at h
      obtain ⟨j, hj, rfl⟩ := h
      have := strnlen_le cs m j hj
      omega

theorem strnlen_le_length : ∀ (s : List Nat) (m k : Nat), strnlen s m = some k → k ≤ s.length
  | _, 0, k, h => by
    simp [strnlen] at h
    omega
  | [], _ + 1, _, h => by simp [strnlen] at h
  | c :: cs, m + 1, k, h => by
    by_cases hc : c = 0
    · simp [strnlen, hc] at h
      omega
    · simp only [strnlen, hc, if_false, Option.map_eq_some'] at h
      obtain ⟨j, hj, rfl⟩ := h
      have := strnlen_le_length cs m j hj
      simp only [List.length_cons]
      omega

theorem strnlen_terminated : ∀ (s : List Nat) (m L : Nat),
    TerminatedAt s L → L < m → strnlen s m = some L
  | _, 0, _, _, h => by omega
  | [], _ + 1, L, ht, _ => by simp [TerminatedAt] at ht
  | c :: cs, m + 1, 0, ht, _ => by
    have hc : c = 0 := by simpa [TerminatedAt] using ht.1
    simp [strnlen, hc]
  | c :: cs, m + 1, L + 1, ht, h => by
    have hc : c ≠ 0 := by
      have := ht.2 0 (Nat.succ_pos L)
      simpa using this
    have ht2 : TerminatedAt cs L := by
      refine ⟨by simpa using ht.1, fun i hi => ?_⟩
      have := ht.2 (i + 1) (by omega)
      simpa using this
    have ih := strnlen_terminated cs m L ht2 (by omega)
    simp [strnlen, hc, ih]

theorem strnlen_unterminated_prefix : ∀ (s : List Nat) (m k : Nat),
    strnlen s m = some k → Unterminated s k
  | _, 0, k, h => by
    simp [strnlen] at h
    subst h
    intro i hi
    omega
  | [], _ + 1, _, h => by simp [strnlen] at h
  | c :: cs, m + 1, k, h => by
    by_cases hc : c = 0
    · simp [strnlen, hc] at h
      subst h
      intro i hi
      omega
    · simp only [strnlen, hc, if_false, Option.map_eq_some'] at h
      obtain ⟨j, hj, rfl⟩ := h
      have ih := strnlen_unterminated_prefix cs m j hj
      intro i hi
      cases i with
      | zero => simpa using hc
      | succ i =>
        have := ih i (by omega)
        simpa using this

theorem strnlen_lt_terminated : ∀ (s : List Nat) (m k : Nat),
    strnlen s m = some k → k < m → TerminatedAt s k
  | _, 0, _, _, h => by omega
  | [], _ + 1, _, h, _ => by simp [strnlen] at h
  | c :: cs, m + 1, k, h, hk => by
    by_cases hc : c = 0
    · simp [strnlen, hc] at h
      subst h
      subst hc
      refine ⟨by simp, fun i hi => ?_⟩
      omega
    · simp only [strnlen, hc, if_false, Option.map_eq_some'] at h
      obtain ⟨j, hj, rfl⟩ := h
      have ih := strnlen_lt_terminated cs m j hj (by omega)
      refine ⟨by simpa using ih.1, fun i hi => ?_⟩
      cases i with
      | zero => simpa using hc
      | succ i =>
        have := ih.2 i (by omega)
        simpa using this

theorem strnlen_unterminated : ∀ (s : List Nat) (m : Nat),
    m ≤ s.length → Unterminated s m → strnlen s m = some m
  | _, 0, _, _ => by simp [strnlen]
  | [], _ + 1, h, _ => by simp at h
  | c :: cs, m + 1, h, hu => by
    have hc : c ≠ 0 := by
      have := hu 0 (Nat.succ_pos m)
      simpa using this
    have hu2 : Unterminated cs m := by
      intro i hi
      have := hu (i + 1) (by omega)
      simpa using this
    have ih := strnlen_unterminated cs m (by simpa using h) hu2
    simp [strnlen, hc, ih]

theorem TerminatedAt.lt_length {s : List Nat} {L : Nat} (h : TerminatedAt s L) :
    L < s.length := by
  have h1 := h.1
  rw [List.getElem?_eq_some] at h1
  exact h1.1

theorem TerminatedAt.unique {s : List Nat} {L L' : Nat} (h : TerminatedAt s L)
    (h' : TerminatedAt s L') : L = L' := by
  rcases Nat.lt_trichotomy L L' with hlt | heq | hgt
  · exact absurd h.1 (h'.2 L hlt)
  · exact heq
  · exact absurd h'.1 (h.2 L' hgt)

/-! ## Lemmas on `memcpy` -/

theorem memcpy_spec : ∀ (k : Nat) (d : List Nat) (off : Nat) (s d' : List Nat),
    memcpy d off s k = some d' →
    d'.length = d.length ∧ k ≤ s.length ∧ (k = 0 ∨ off + k ≤ d.length) ∧
    ∀ i, d'[i]? = if off ≤ i ∧ i < off + k then s[i - off]? else d[i]?
  | 0, d, off, s, d', h => by
    simp [memcpy] at h
    subst h
    refine ⟨rfl, Nat.zero_le _, Or.inl rfl, fun i => ?_⟩
    have : ¬ (off ≤ i ∧ i < off + 0) := by omega
    rw [if_neg this]
  | k + 1, d, off, [], d', h => by simp [memcpy] at h
  | k + 1, d, off, c :: cs, d', h => by
    by_cases hoff : off < d.length
    · simp only [memcpy, hoff, if_true] at h
      obtain ⟨hl, hk, hb, hg⟩ := memcpy_spec k (d.set off c) (off + 1) cs d' h
      rw [List.length_set] at hl hb
      refine ⟨hl, by simpa using hk, Or.inr (by omega), fun i => ?_⟩
      rw [hg i]
      by_cases h1 : off + 1 ≤ i ∧ i < off + 1 + k
      · have h2 : off ≤ i ∧ i < off + (k + 1) := by omega
        obtain ⟨j, rfl⟩ : ∃ j, i = off + 1 + j := ⟨i - (off + 1), by omega⟩
        have e1 : off + 1 + j - (off + 1) = j := by omega
        have e2 : off + 1 + j - off = j + 1 := by omega
        simp only [h1, h2, and_self, if_true, e1, e2, List.getElem?_cons_succ]
      · by_cases h3 : i = off
        · subst h3
          have h2 : i ≤ i ∧ i < i + (k + 1) := by omega
          simp [h1, h2, hoff]
        · have h2 : ¬ (off ≤ i ∧ i < off + (k + 1)) := by omega
          simp only [h1, h2, if_false]
          exact List.getElem?_set_ne (Ne.symm h3)
    · simp [memcpy, hoff] at h

theorem memcpy_isSome : ∀ (k : Nat) (d : List Nat) (off : Nat) (s : List Nat),
    k ≤ s.length → (k = 0 ∨ off + k ≤ d.length) → ∃ d', memcpy d off s k = some d'
  | 0, d, _, _, _, _ => ⟨d, by simp [memcpy]⟩
  | k + 1, d, off, [], h, _ => by simp at h
  | k + 1, d, off, c :: cs, h, hb => by
    have hoff : off < d.length := by omega
    obtain ⟨d', hd'⟩ := memcpy_isSome k (d.set off c) (off + 1) cs (by simpa using h)
      (Or.inr (by rw [List.length_set]; omega))
    exact ⟨d', by simp [memcpy, hoff, hd']⟩

/-! ## Unfolding the three functions -/

theorem strlen_safe_null (c : Nat) (file : String) (line : Int) :
    strlen_safe_ none c file line = Ret.fatal ⟨"source != NULL", FILE_htssafe_h, 138⟩ := by
  simp [strlen_safe_, assertf_, assertf__]

theorem strlen_safe_ub (s : List Nat) (c : Nat) (file : String) (line : Int)
    (h : strnlen s c = none) : strlen_safe_ (some s) c file line = Ret.ub := by
  simp [strlen_safe_, assertf_, assertf__, h]

theorem strlen_safe_ok (s : List Nat) (c k : Nat) (file : String) (line : Int)
    (h : strnlen s c = some k) (hk : k < c) : strlen_safe_ (some s) c file line = Ret.ok k := by
  simp [strlen_safe_, assertf_, assertf__, h, hk]

theorem strlen_safe_fatal (s : List Nat) (c k : Nat) (file : String) (line : Int)
    (h : strnlen s c = some k) (hk : ¬ k < c) :
    strlen_safe_ (some s) c file line = Ret.fatal ⟨"size < sizeof_source", FILE_htssafe_h, 140⟩ := by
  simp [strlen_safe_, assertf_, assertf__, h, hk]

theorem strlen_safe_ok_iff (s : List Nat) (c k : Nat) (file : String) (line : Int) :
    strlen_safe_ (some s) c file line = Ret.ok k ↔ strnlen s c = some k ∧ k < c := by
  constructor
  · intro h
    cases hs : strnlen s c with
    | none => rw [strlen_safe_ub s c file line hs] at h; cases h
    | some j =>
      by_cases hj : j < c
      · rw [strlen_safe_ok s c j file line hs hj] at h
        cases h
        exact ⟨rfl, hj⟩
      · rw [strlen_safe_fatal s c j file line hs hj] at h; cases h
  · rintro ⟨h, hk⟩
    exact strlen_safe_ok s c k file line h hk

/-- The part of `strncat_safe_` after the two lengths have been found. -/
theorem strncat_after_lengths (w : Nat) (d s : List Nat) (C Cs L S n : Nat)
    (exp file : String) (line : Int)
    (hS : strnlen s Cs = some S) (hSlt : S < Cs) (hL : strnlen d C = some L) (hLlt : L < C) :
    strncat_safe_ w (some d) C (some s) Cs n exp file line =
      if (L + min S n) % 2 ^ w < C then
        match memcpy d L s (min S n) with
        | none => Outcome.ub
        | some d1 =>
          if (L + min S n) % 2 ^ w < d1.length then
            Outcome.ok (d1.set ((L + min S n) % 2 ^ w) 0)
          else Outcome.ub
      else Outcome.fatal (some d) ⟨exp, file, line⟩ := by
  have e : (if S ≤ n then S else n) = min S n := Nat.min_def.symm
  simp only [strncat_safe_, strlen_safe_ok s Cs S file line hS hSlt,
    strlen_safe_ok d C L file line hL hLlt, e, assertf__]
  by_cases hc : (L + min S n) % 2 ^ w < C
  · simp [hc]
  · simp [hc]

/-- Inversion of a successful `strncat_safe_`. -/
theorem strncat_ok_inv (w : Nat) (d s : List Nat) (C Cs n : Nat)
    (exp file : String) (line : Int) (d' : List Nat)
    (h : strncat_safe_ w (some d) C (some s) Cs n exp file line = Outcome.ok d') :
    ∃ L S d1, strnlen s Cs = some S ∧ S < Cs ∧ strnlen d C = some L ∧ L < C ∧
      (L + min S n) % 2 ^ w < C ∧ memcpy d L s (min S n) = some d1 ∧
      (L + min S n) % 2 ^ w < d1.length ∧ d' = d1.set ((L + min S n) % 2 ^ w) 0 := by
  cases hs : strlen_safe_ (some s) Cs file line with
  | fatal dg => simp [strncat_safe_, hs] at h
  | ub => simp [strncat_safe_, hs] at h
  | ok S =>
    cases hd : strlen_safe_ (some d) C file line with
    | fatal dg => simp [strncat_safe_, hs, hd] at h
    | ub => simp [strncat_safe_, hs, hd] at h
    | ok L =>
      obtain ⟨hS, hSlt⟩ := (strlen_safe_ok_iff s Cs S file line).1 hs
      obtain ⟨hL, hLlt⟩ := (strlen_safe_ok_iff d C L file line).1 hd
      rw [strncat_after_lengths w d s C Cs L S n exp file line hS hSlt hL hLlt] at h
      by_cases hc : (L + min S n) % 2 ^ w < C
      · rw [if_pos hc] at h
        cases hm : memcpy d L s (min S n) with
        | none => simp [hm] at h
        | some d1 =>
          simp only [hm] at h
          by_cases hl : (L + min S n) % 2 ^ w < d1.length
          · rw [if_pos hl] at h
            cases h
            exact ⟨L, S, d1, hS, hSlt, hL, hLlt, hc, hm, hl, rfl⟩
          · rw [if_neg hl] at h; cases h
      · rw [if_neg hc] at h; cases h

/-! ## The bounded append on two terminated strings -/

/-- With both strings terminated inside their capacities and no wrap of the sum, the
append that fits returns the destination after `memcpy` and the store of the terminator. -/
theorem strncat_eval_ok (w : Nat) (d s : List Nat) (C Cs L S n : Nat)
    (exp file : String) (line : Int)
    (hC : C ≤ d.length) (hd : TerminatedAt d L) (hL : L < C)
    (hs : TerminatedAt s S) (hS : S < Cs)
    (hw : L + min S n < 2 ^ w) (hfit : L + min S n < C) :
    ∃ d1, memcpy d L s (min S n) = some d1 ∧
      strncat_safe_ w (some d) C (some s) Cs n exp file line
        = Outcome.ok (d1.set (L + min S n) 0) := by
  have hk : min S n ≤ s.length := by
    have := hs.lt_length
    have := Nat.min_le_left S n
    omega
  obtain ⟨d1, hd1⟩ := memcpy_isSome (min S n) d L s hk (Or.inr (by omega))
  have hlen : d1.length = d.length := (memcpy_spec _ _ _ _ _ hd1).1
  refine ⟨d1, hd1, ?_⟩
  rw [strncat_after_lengths w d s C Cs L S n exp file line
    (strnlen_terminated s Cs S hs hS) hS (strnlen_terminated d C L hd hL) hL,
    Nat.mod_eq_of_lt hw, if_pos hfit]
  simp only [hd1]
  rw [if_pos (by omega)]

/-- With both strings terminated inside their capacities and no wrap of the sum, the
append that does not fit reaches `abortf_` with the caller's message and place, the
destination untouched. -/
theorem strncat_eval_fatal (w : Nat) (d s : List Nat) (C Cs L S n : Nat)
    (exp file : String) (line : Int)
    (hd : TerminatedAt d L) (hL : L < C)
    (hs : TerminatedAt s S) (hS : S < Cs)
    (hw : L + min S n < 2 ^ w) (hfit : ¬ L + min S n < C) :
    strncat_safe_ w (some d) C (some s) Cs n exp file line
      = Outcome.fatal (some d) ⟨exp, file, line⟩ := by
  rw [strncat_after_lengths w d s C Cs L S n exp file line
    (strnlen_terminated s Cs S hs hS) hS (strnlen_terminated d C L hd hL) hL,
    Nat.mod_eq_of_lt hw, if_neg hfit]

/-- Bytes of the destination after `memcpy` at the content end and the terminator store. -/
theorem appended_getElem? (d s d1 : List Nat) (L k : Nat)
    (hm : memcpy d L s k = some d1) (hlt : L + k < d.length) (i : Nat) :
    (d1.set (L + k) 0)[i]? =
      if i = L + k then some 0
      else if L ≤ i ∧ i < L + k then s[i - L]? else d[i]? := by
  obtain ⟨hlen, -, -, hg⟩ := memcpy_spec _ _ _ _ _ hm
  by_cases hi : i = L + k
  · subst hi
    rw [if_pos rfl]
    exact List.getElem?_set_self (by omega)
  · rw [if_neg hi, List.getElem?_set_ne (Ne.symm hi), hg i]

theorem appended_terminated (d s d1 : List Nat) (L S k : Nat)
    (hm : memcpy d L s k = some d1) (hlt : L + k < d.length)
    (hd : TerminatedAt d L) (hs : TerminatedAt s S) (hk : k ≤ S) :
    TerminatedAt (d1.set (L + k) 0) (L + k) := by
  refine ⟨?_, fun i hi => ?_⟩
  · rw [appended_getElem? d s d1 L k hm hlt, if_pos rfl]
  · rw [appended_getElem? d s d1 L k hm hlt, if_neg (by omega)]
    by_cases h1 : L ≤ i ∧ i < L + k
    · rw [if_pos h1]
      exact hs.2 (i - L) (by omega)
    · rw [if_neg h1]
      exact hd.2 i (by omega)


/-- A successful append, read back: the lengths found are those of the two contents,
the sum did not wrap, it fits, and the result is the destination after `memcpy` and the
terminator store. -/
theorem strncat_ok_post (w : Nat) (d s : List Nat) (C Cs L S n : Nat)
    (exp file : String) (line : Int) (d' : List Nat)
    (hsize : d.length < 2 ^ w) (hd : TerminatedAt d L) (hs : TerminatedAt s S)
    (h : strncat_safe_ w (some d) C (some s) Cs n exp file line = Outcome.ok d') :
    L < C ∧ S < Cs ∧ L + min S n < C ∧ L + min S n < d.length ∧
    ∃ d1, memcpy d L s (min S n) = some d1 ∧ d' = d1.set (L + min S n) 0 := by
  obtain ⟨L', S', d1, hS', hSlt, hL', hLlt, hc, hm, hl, hd'⟩ :=
    strncat_ok_inv w d s C Cs n exp file line d' h
  have eS : S' = S := (strnlen_lt_terminated s Cs S' hS' hSlt).unique hs
  have eL : L' = L := (strnlen_lt_terminated d C L' hL' hLlt).unique hd
  subst eS eL
  obtain ⟨hlen, -, hb, -⟩ := memcpy_spec _ _ _ _ _ hm
  have hLd := hd.lt_length
  have hw : L' + min S' n < 2 ^ w := by omega
  rw [Nat.mod_eq_of_lt hw] at hc hl hd'
  exact ⟨hLlt, hSlt, hc, by omega, d1, hm, hd'⟩

/-! ## The bounded copy -/

theorem strnlen_set_zero (d : List Nat) (C : Nat) (hd : 0 < d.length) (hC : C ≠ 0) :
    strnlen (d.set 0 0) C = some 0 := by
  cases d with
  | nil => simp at hd
  | cons x xs =>
    cases C with
    | zero => exact absurd rfl hC
    | succ m => simp [strnlen]

theorem strcpy_zero_capacity (w : Nat) (dest source : Option (List Nat)) (Cs : Nat)
    (exp file : String) (line : Int) :
    strcpy_safe_ w dest 0 source Cs exp file line
      = Outcome.fatal dest ⟨"sizeof_dest != 0", FILE_htssafe_h, 161⟩ := by
  simp [strcpy_safe_, assertf_, assertf__]

theorem strcpy_unfold (w : Nat) (d : List Nat) (C : Nat) (source : Option (List Nat)) (Cs : Nat)
    (exp file : String) (line : Int) (hC : C ≠ 0) (hd : 0 < d.length) :
    strcpy_safe_ w (some d) C source Cs exp file line
      = strncat_safe_ w (some (d.set 0 0)) C source Cs (2 ^ w - 1) exp file line := by
  simp [strcpy_safe_, assertf_, assertf__, hC, hd]

theorem strcpy_empty_object (w : Nat) (C : Nat) (source : Option (List Nat)) (Cs : Nat)
    (exp file : String) (line : Int) (hC : C ≠ 0) :
    strcpy_safe_ w (some []) C source Cs exp file line = Outcome.ub := by
  simp [strcpy_safe_, assertf_, assertf__, hC]

/-- The destination after `memcpy` at offset 0 and the terminator store, as one list. -/
theorem copied_eq (d s dm : List Nat) (k : Nat)
    (hm : memcpy d 0 s k = some dm) (hk : k < d.length) :
    dm.set k 0 = s.take k ++ 0 :: d.drop (k + 1) := by
  obtain ⟨-, hks, -, -⟩ := memcpy_spec _ _ _ _ _ hm
  have hg := appended_getElem? d s dm 0 k hm (by omega)
  rw [Nat.zero_add] at hg
  apply List.ext_getElem?
  intro i
  rw [hg i]
  have hlen : (s.take k).length = k := by
    rw [List.length_take]
    omega
  by_cases h1 : i = k
  · subst h1
    rw [if_pos rfl, List.getElem?_append_right (by omega), hlen]
    simp
  · rw [if_neg h1]
    by_cases h2 : i < k
    · rw [if_pos ⟨Nat.zero_le _, by omega⟩, List.getElem?_append_left (by omega),
        List.getElem?_take_of_lt h2]
      simp
    · rw [if_neg (by omega), List.getElem?_append_right (by omega), hlen]
      obtain ⟨j, rfl⟩ : ∃ j, i = k + 1 + j := ⟨i - (k + 1), by omega⟩
      have e : k + 1 + j - k = j + 1 := by omega
      rw [e, List.getElem?_cons_succ, List.getElem?_drop]

/-- A successful `strcpy_safe_`, exactly: the capacity is not zero, the source length `S`
is found inside the source capacity, `k = min S (2 ^ w - 1)` bytes fit, and the object then
holds these `k` bytes, a terminator, and its old bytes beyond. -/
theorem strcpy_ok_iff (w : Nat) (d s : List Nat) (C Cs : Nat)
    (exp file : String) (line : Int) (d1 : List Nat) :
    strcpy_safe_ w (some d) C (some s) Cs exp file line = Outcome.ok d1 ↔
      C ≠ 0 ∧ ∃ S, strnlen s Cs = some S ∧ S < Cs ∧ min S (2 ^ w - 1) < C ∧
        min S (2 ^ w - 1) < d.length ∧
        d1 = s.take (min S (2 ^ w - 1)) ++ 0 :: d.drop (min S (2 ^ w - 1) + 1) := by
  have hpow : 0 < 2 ^ w := Nat.two_pow_pos w
  constructor
  · intro h
    by_cases hC : C = 0
    · subst hC
      rw [strcpy_zero_capacity] at h
      cases h
    · by_cases hd : 0 < d.length
      · rw [strcpy_unfold w d C (some s) Cs exp file line hC hd] at h
        obtain ⟨L, S, dm, hS, hSlt, hL, hLlt, hc, hm, hl, hd1⟩ :=
          strncat_ok_inv w (d.set 0 0) s C Cs (2 ^ w - 1) exp file line d1 h
        rw [strnlen_set_zero d C hd hC] at hL
        cases hL
        have hk : min S (2 ^ w - 1) < 2 ^ w := by
          have := Nat.min_le_right S (2 ^ w - 1)
          omega
        rw [Nat.zero_add, Nat.mod_eq_of_lt hk] at hc hl hd1
        obtain ⟨hlen, -, -, -⟩ := memcpy_spec _ _ _ _ _ hm
        rw [List.length_set] at hlen
        have hkd : min S (2 ^ w - 1) < (d.set 0 0).length := by
          rw [List.length_set]
          omega
        refine ⟨hC, S, hS, hSlt, hc, by omega, ?_⟩
        rw [hd1, copied_eq (d.set 0 0) s dm _ hm hkd, List.drop_set_of_lt 0 d (by omega)]
      · have : d = [] := List.length_eq_zero.mp (by omega)
        subst this
        rw [strcpy_empty_object w C (some s) Cs exp file line hC] at h
        cases h
  · rintro ⟨hC, S, hS, hSlt, hc, hkd, hd1⟩
    have hd : 0 < d.length := by omega
    have hLz : strnlen (d.set 0 0) C = some 0 := strnlen_set_zero d C hd hC
    have hk : min S (2 ^ w - 1) < 2 ^ w := by
      have := Nat.min_le_right S (2 ^ w - 1)
      omega
    have hSs : S < s.length := (strnlen_lt_terminated s Cs S hS hSlt).lt_length
    have hks : min S (2 ^ w - 1) ≤ s.length := by
      have := Nat.min_le_left S (2 ^ w - 1)
      omega
    have hkd' : min S (2 ^ w - 1) < (d.set 0 0).length := by
      rw [List.length_set]
      exact hkd
    obtain ⟨dm, hm⟩ := memcpy_isSome (min S (2 ^ w - 1)) (d.set 0 0) 0 s hks
      (Or.inr (by omega))
    have hlen : dm.length = (d.set 0 0).length := (memcpy_spec _ _ _ _ _ hm).1
    rw [strcpy_unfold w d C (some s) Cs exp file line hC hd,
      strncat_after_lengths w (d.set 0 0) s C Cs 0 S (2 ^ w - 1) exp file line hS hSlt hLz
        (by omega),
      Nat.zero_add, Nat.mod_eq_of_lt hk, if_pos hc]
    simp only [hm]
    rw [if_pos (by omega), copied_eq (d.set 0 0) s dm _ hm hkd',
      List.drop_set_of_lt 0 d (by omega), hd1]

/-- The list a successful copy leaves is terminated at the number of bytes copied. -/
theorem copied_terminated (d s : List Nat) (S k : Nat) (hs : Unterminated s S) (hk : k ≤ S)
    (hks : k ≤ s.length) :
    TerminatedAt (s.take k ++ 0 :: d.drop (k + 1)) k := by
  have hlen : (s.take k).length = k := by
    rw [List.length_take]
    omega
  refine ⟨?_, fun i hi => ?_⟩
  · rw [List.getElem?_append_right (by omega), hlen]
    simp
  · rw [List.getElem?_append_left (by omega), List.getElem?_take_of_lt hi]
    exact hs i (by omega)

/-! ## Staying inside the objects -/

theorem strncat_source_fatal (w : Nat) (dest : Option (List Nat)) (C : Nat) (s : List Nat)
    (Cs S n : Nat) (exp file : String) (line : Int)
    (hS : strnlen s Cs = some S) (hSlt : ¬ S < Cs) :
    strncat_safe_ w dest C (some s) Cs n exp file line
      = Outcome.fatal dest ⟨"size < sizeof_source", FILE_htssafe_h, 140⟩ := by
  simp [strncat_safe_, strlen_safe_fatal s Cs S file line hS hSlt]

theorem strncat_source_null (w : Nat) (dest : Option (List Nat)) (C Cs n : Nat)
    (exp file : String) (line : Int) :
    strncat_safe_ w dest C none Cs n exp file line
      = Outcome.fatal dest ⟨"source != NULL", FILE_htssafe_h, 138⟩ := by
  simp [strncat_safe_, strlen_safe_null]

/-- Every fatal result of `strlen_safe_` carries one of the two diagnostics of its own
assertions. -/
theorem strlen_safe_fatal_diag (p : Option (List Nat)) (c : Nat) (file : String) (line : Int)
    (dg : Diag) (h : strlen_safe_ p c file line = Ret.fatal dg) :
    (p = none ∧ dg = ⟨"source != NULL", FILE_htssafe_h, 138⟩) ∨
    (∃ s, p = some s ∧ strnlen s c = some c ∧
      dg = ⟨"size < sizeof_source", FILE_htssafe_h, 140⟩) := by
  cases p with
  | none =>
    rw [strlen_safe_null] at h
    cases h
    exact Or.inl ⟨rfl, rfl⟩
  | some s =>
    cases hs : strnlen s c with
    | none =>
      rw [strlen_safe_ub s c file line hs] at h
      cases h
    | some k =>
      by_cases hk : k < c
      · rw [strlen_safe_ok s c k file line hs hk] at h
        cases h
      · rw [strlen_safe_fatal s c k file line hs hk] at h
        cases h
        have hle := strnlen_le s c k hs
        have hkc : k = c := by omega
        subst hkc
        exact Or.inr ⟨s, rfl, hs, rfl⟩

/-- A fatal `strncat_safe_`: the destination is the one passed in, and the diagnostic is
that of a length check of `strlen_safe_` or the caller's. -/
theorem strncat_fatal_cases (w : Nat) (dest : Option (List Nat)) (C : Nat)
    (source : Option (List Nat)) (Cs n : Nat) (exp file : String) (line : Int)
    (m : Option (List Nat)) (dg : Diag)
    (h : strncat_safe_ w dest C source Cs n exp file line = Outcome.fatal m dg) :
    m = dest ∧
    (dg = ⟨"source != NULL", FILE_htssafe_h, 138⟩ ∨
      dg = ⟨"size < sizeof_source", FILE_htssafe_h, 140⟩ ∨ dg = ⟨exp, file, line⟩) := by
  cases hs : strlen_safe_ source Cs file line with
  | fatal dg1 =>
    simp only [strncat_safe_, hs] at h
    cases h
    refine ⟨rfl, ?_⟩
    rcases strlen_safe_fatal_diag source Cs file line dg hs with ⟨-, e⟩ | ⟨_, -, -, e⟩
    · exact Or.inl e
    · exact Or.inr (Or.inl e)
  | ub =>
    simp only [strncat_safe_, hs] at h
    cases h
  | ok S =>
    cases hd : strlen_safe_ dest C file line with
    | fatal dg1 =>
      simp only [strncat_safe_, hs, hd] at h
      cases h
      refine ⟨rfl, ?_⟩
      rcases strlen_safe_fatal_diag dest C file line dg hd with ⟨-, e⟩ | ⟨_, -, -, e⟩
      · exact Or.inl e
      · exact Or.inr (Or.inl e)
    | ub =>
      simp only [strncat_safe_, hs, hd] at h
      cases h
    | ok L =>
      simp only [strncat_safe_, hs, hd, assertf__] at h
      by_cases hc : (L + if S ≤ n then S else n) % 2 ^ w < C
      · simp only [hc, decide_True, if_true] at h
        cases dest with
        | none => cases h
        | some dmem =>
          cases source with
          | none => cases h
          | some smem =>
            simp only at h
            cases hm : memcpy dmem L smem (if S ≤ n then S else n) with
            | none =>
              rw [hm] at h
              cases h
            | some dmem1 =>
              rw [hm] at h
              simp only at h
              by_cases hl : (L + if S ≤ n then S else n) % 2 ^ w < dmem1.length
              · rw [if_pos hl] at h
                cases h
              · rw [if_neg hl] at h
                cases h
      · simp only [hc, decide_False, if_false] at h
        cases h
        exact ⟨rfl, Or.inr (Or.inr rfl)⟩

/-- A `strcpy_safe_` that passed the capacity check on an object with a first byte is the
append onto the emptied destination, for a source pointer of any kind. -/
theorem strcpy_fatal_state (w : Nat) (d : List Nat) (C : Nat) (source : Option (List Nat))
    (Cs : Nat) (exp file : String) (line : Int) (m : Option (List Nat)) (dg : Diag)
    (hC : C ≠ 0) (h : strcpy_safe_ w (some d) C source Cs exp file line = Outcome.fatal m dg) :
    0 < d.length ∧ m = some (d.set 0 0) := by
  by_cases hd : 0 < d.length
  · rw [strcpy_unfold w d C source Cs exp file line hC hd] at h
    exact ⟨hd, (strncat_fatal_cases w _ C source Cs _ exp file line m dg h).1⟩
  · have : d = [] := List.length_eq_zero.mp (by omega)
    subst this
    rw [strcpy_empty_object w C source Cs exp file line hC] at h
    cases h

/-- Two count limits that both reach the source length give the same run. -/
theorem strncat_limit_eq (w : Nat) (dest : Option (List Nat)) (C : Nat) (s : List Nat)
    (Cs S n n' : Nat) (exp file : String) (line : Int)
    (hs : TerminatedAt s S) (hn : S < Cs → S ≤ n) (hn' : S < Cs → S ≤ n') :
    strncat_safe_ w dest C (some s) Cs n exp file line
      = strncat_safe_ w dest C (some s) Cs n' exp file line := by
  cases h : strlen_safe_ (some s) Cs file line with
  | fatal dg => simp only [strncat_safe_, h]
  | ub => simp only [strncat_safe_, h]
  | ok S0 =>
    obtain ⟨h1, h2⟩ := (strlen_safe_ok_iff s Cs S0 file line).1 h
    have e : S0 = S := (strnlen_lt_terminated s Cs S0 h1 h2).unique hs
    subst e
    simp only [strncat_safe_, h, if_pos (hn h2), if_pos (hn' h2)]

/-- A whole-source append on a valid destination, exactly: it succeeds if and only if the
two lengths sum below the capacity, and the result is the destination after `memcpy` of
the `S` bytes and the terminator store. -/
theorem strncat_full_ok_iff (w : Nat) (d s : List Nat) (C Cs L S n : Nat)
    (exp file : String) (line : Int) (d' : List Nat)
    (hC : C ≤ d.length) (hsize : d.length < 2 ^ w) (hd : TerminatedAt d L) (hL : L < C)
    (hs : TerminatedAt s S) (hS : S < Cs) (hn : S ≤ n) :
    strncat_safe_ w (some d) C (some s) Cs n exp file line = Outcome.ok d' ↔
      L + S < C ∧ ∃ d1, memcpy d L s S = some d1 ∧ d' = d1.set (L + S) 0 := by
  have hmin : min S n = S := Nat.min_eq_left hn
  constructor
  · intro h
    have := strncat_ok_post w d s C Cs L S n exp file line d' hsize hd hs h
    rw [hmin] at this
    exact ⟨this.2.2.1, this.2.2.2.2⟩
  · rintro ⟨hfit, d1, hm, rfl⟩
    obtain ⟨d1', hm', h⟩ := strncat_eval_ok w d s C Cs L S n exp file line hC hd hL hs hS
      (by rw [hmin]; omega) (by rw [hmin]; exact hfit)
    rw [hmin] at hm' h
    rw [hm] at hm'
    cases hm'
    exact h

/-! ## The claims -/

/-- C1. A destination of capacity `C` terminated at offset `L < C`, a source terminated at
offset `S` inside its capacity, any count limit `M`, with `L + S` inside the `size_t`
range: `strncat_safe_` succeeds if and only if `L + min S M < C`; on success the
destination is terminated at offset exactly `L + min S M`; when it does not succeed it
ends in `abortf_` with the caller's message.  In particular `L + min S M = C - 1`
succeeds and `L + min S M = C` fails fatally. -/
theorem strncat_safe_succeeds_iff (w : Nat) (d s : List Nat) (C Cs L S M : Nat)
    (exp file : String) (line : Int)
    (hC : C ≤ d.length) (hd : TerminatedAt d L) (hL : L < C)
    (hs : TerminatedAt s S) (hS : S < Cs) (hrange : L + S < 2 ^ w) :
    ((∃ d', strncat_safe_ w (some d) C (some s) Cs M exp file line = Outcome.ok d')
        ↔ L + min S M < C) ∧
    (∀ d', strncat_safe_ w (some d) C (some s) Cs M exp file line = Outcome.ok d' →
        TerminatedAt d' (L + min S M)) ∧
    (¬ L + min S M < C →
        strncat_safe_ w (some d) C (some s) Cs M exp file line
          = Outcome.fatal (some d) ⟨exp, file, line⟩) ∧
    (L + min S M = C - 1 →
        ∃ d', strncat_safe_ w (some d) C (some s) Cs M exp file line = Outcome.ok d') ∧
    (L + min S M = C →
        strncat_safe_ w (some d) C (some s) Cs M exp file line
          = Outcome.fatal (some d) ⟨exp, file, line⟩) := by
  have hw : L + min S M < 2 ^ w := by
    have := Nat.min_le_left S M
    omega
  have hfatal : ¬ L + min S M < C →
      strncat_safe_ w (some d) C (some s) Cs M exp file line
        = Outcome.fatal (some d) ⟨exp, file, line⟩ :=
    strncat_eval_fatal w d s C Cs L S M exp file line hd hL hs hS hw
  have hok : L + min S M < C →
      ∃ d1, memcpy d L s (min S M) = some d1 ∧
        strncat_safe_ w (some d) C (some s) Cs M exp file line
          = Outcome.ok (d1.set (L + min S M) 0) :=
    strncat_eval_ok w d s C Cs L S M exp file line hC hd hL hs hS hw
  refine ⟨⟨?_, ?_⟩, ?_, hfatal, ?_, ?_⟩
  · rintro ⟨d', hd'⟩
    by_contra hfit
    rw [hfatal hfit] at hd'
    cases hd'
  · intro hfit
    obtain ⟨d1, -, h⟩ := hok hfit
    exact ⟨_, h⟩
  · intro d' hd'
    by_cases hfit : L + min S M < C
    · obtain ⟨d1, hm, h⟩ := hok hfit
      rw [h] at hd'
      cases hd'
      exact appended_terminated d s d1 L S (min S M) hm (by omega) hd hs (Nat.min_le_left S M)
    · rw [hfatal hfit] at hd'
      cases hd'
  · intro he
    obtain ⟨d1, -, h⟩ := hok (by omega)
    exact ⟨_, h⟩
  · intro he
    exact hfatal (by omega)

/-- C1, at capacity 8, content "ab" and source "cdefgh": the append fails fatally. -/
theorem strncat_safe_succeeds_iff_witness :
    (8 ≤ [97, 98, 0, 0, 0, 0, 0, 0].length ∧ TerminatedAt [97, 98, 0, 0, 0, 0, 0, 0] 2 ∧ 2 < 8 ∧
      TerminatedAt [99, 100, 101, 102, 103, 104, 0] 6 ∧ 6 < 7 ∧ 2 + 6 < 2 ^ 64) ∧
    strncat_safe_ 64 (some [97, 98, 0, 0, 0, 0, 0, 0]) 8 (some [99, 100, 101, 102, 103, 104, 0]) 7
      (2 ^ 64 - 1) "overflow while appending" "htslib.c" 100
      = Outcome.fatal (some [97, 98, 0, 0, 0, 0, 0, 0]) ⟨"overflow while appending", "htslib.c", 100⟩ :=
  ⟨⟨by decide, by decide, by decide, by decide, by decide, by decide⟩,
   (strncat_safe_succeeds_iff 64 [97, 98, 0, 0, 0, 0, 0, 0] [99, 100, 101, 102, 103, 104, 0]
      8 7 2 6 (2 ^ 64 - 1) "overflow while appending" "htslib.c" 100
      (by decide) (by decide) (by decide) (by decide) (by decide) (by decide)).2.2.2.2
      (by decide)⟩

/-- C2. Frame of a successful `strncat_safe_` on a destination with content of length `L`
and a source of length `S`, with `k = min S M`: bytes `0..L-1` of the destination are
unchanged, bytes `L..L+k-1` are source bytes `0..k-1`, byte `L+k` is the terminator, every
byte beyond `L+k` is unchanged, and the object keeps its size.  The source is a value of
the embedding that no step writes.  The size of the destination object is a `size_t`. -/
theorem strncat_safe_frame (w : Nat) (d s : List Nat) (C Cs L S M : Nat)
    (exp file : String) (line : Int) (d' : List Nat)
    (hsize : d.length < 2 ^ w) (hd : TerminatedAt d L) (hs : TerminatedAt s S)
    (h : strncat_safe_ w (some d) C (some s) Cs M exp file line = Outcome.ok d') :
    d'.length = d.length ∧
    (∀ i, i < L → d'[i]? = d[i]?) ∧
    (∀ i, i < min S M → d'[L + i]? = s[i]?) ∧
    d'[L + min S M]? = some 0 ∧
    (∀ i, L + min S M < i → d'[i]? = d[i]?) := by
  obtain ⟨-, -, -, hlt, d1, hm, rfl⟩ :=
    strncat_ok_post w d s C Cs L S M exp file line d' hsize hd hs h
  have hg := appended_getElem? d s d1 L (min S M) hm hlt
  refine ⟨?_, fun i hi => ?_, fun i hi => ?_, ?_, fun i hi => ?_⟩
  · rw [List.length_set]
    exact (memcpy_spec _ _ _ _ _ hm).1
  · rw [hg, if_neg (by omega), if_neg (by omega)]
  · rw [hg, if_neg (by omega), if_pos (by omega)]
    congr 1
    omega
  · rw [hg, if_pos rfl]
  · rw [hg, if_neg (by omega), if_neg (by omega)]

/-- C2, at capacity 8, content "ab", source "cdefg" and no count limit: the content
becomes "abcdefg". -/
theorem strncat_safe_frame_witness :
    ([97, 98, 0, 1, 2, 3, 4, 5].length < 2 ^ 64 ∧ TerminatedAt [97, 98, 0, 1, 2, 3, 4, 5] 2 ∧
      TerminatedAt [99, 100, 101, 102, 103, 0] 5 ∧
      strncat_safe_ 64 (some [97, 98, 0, 1, 2, 3, 4, 5]) 8 (some [99, 100, 101, 102, 103, 0]) 6
        (2 ^ 64 - 1) "overflow while appending" "htslib.c" 100
        = Outcome.ok [97, 98, 99, 100, 101, 102, 103, 0]) ∧
    ([97, 98, 99, 100, 101, 102, 103, 0].length = [97, 98, 0, 1, 2, 3, 4, 5].length ∧
      (∀ i, i < 2 → [97, 98, 99, 100, 101, 102, 103, 0][i]? = [97, 98, 0, 1, 2, 3, 4, 5][i]?) ∧
      (∀ i, i < min 5 (2 ^ 64 - 1) →
        [97, 98, 99, 100, 101, 102, 103, 0][2 + i]? = [99, 100, 101, 102, 103, 0][i]?) ∧
      [97, 98, 99, 100, 101, 102, 103, 0][2 + min 5 (2 ^ 64 - 1)]? = some 0 ∧
      (∀ i, 2 + min 5 (2 ^ 64 - 1) < i →
        [97, 98, 99, 100, 101, 102, 103, 0][i]? = [97, 98, 0, 1, 2, 3, 4, 5][i]?)) :=
  ⟨⟨by decide, by decide, by decide, by decide⟩,
   strncat_safe_frame 64 [97, 98, 0, 1, 2, 3, 4, 5] [99, 100, 101, 102, 103, 0] 8 6 2 5
     (2 ^ 64 - 1) "overflow while appending" "htslib.c" 100 [97, 98, 99, 100, 101, 102, 103, 0]
     (by decide) (by decide) (by decide) (by decide)⟩

/-- C3. For every capacity `C`, every prior content of a destination object of that
capacity (terminated or not) and every source terminated at offset `S` inside its source
capacity: `strcpy_safe_` succeeds if and only if `0 < C` and `S < C`; on success the
destination is terminated at `S` and its `S` content bytes are those of the source; with
`C = 0` it ends in `abortf_` at the capacity check, and with `0 < C ≤ S` it ends in
`abortf_` with the caller's message (the destination then holds the empty string): no
shorter copy is ever produced. -/
theorem strcpy_safe_succeeds_iff (w : Nat) (d s : List Nat) (C Cs S : Nat)
    (exp file : String) (line : Int)
    (hC : C ≤ d.length) (hs : TerminatedAt s S) (hS : S < Cs) (hCs : Cs < 2 ^ w) :
    ((∃ d', strcpy_safe_ w (some d) C (some s) Cs exp file line = Outcome.ok d')
        ↔ 0 < C ∧ S < C) ∧
    (∀ d', strcpy_safe_ w (some d) C (some s) Cs exp file line = Outcome.ok d' →
        TerminatedAt d' S ∧ ∀ i, i < S → d'[i]? = s[i]?) ∧
    (C = 0 →
        strcpy_safe_ w (some d) C (some s) Cs exp file line
          = Outcome.fatal (some d) ⟨"sizeof_dest != 0", FILE_htssafe_h, 161⟩) ∧
    (0 < C → ¬ S < C →
        strcpy_safe_ w (some d) C (some s) Cs exp file line
          = Outcome.fatal (some (d.set 0 0)) ⟨exp, file, line⟩) := by
  have hSn : strnlen s Cs = some S := strnlen_terminated s Cs S hs hS
  have hmin : min S (2 ^ w - 1) = S := Nat.min_eq_left (by omega)
  have hSs : S < s.length := hs.lt_length
  refine ⟨⟨?_, ?_⟩, ?_, ?_, ?_⟩
  · rintro ⟨d', hd'⟩
    obtain ⟨hC0, S', hS', -, hc, -, -⟩ :=
      (strcpy_ok_iff w d s C Cs exp file line d').1 hd'
    rw [hSn] at hS'
    cases hS'
    rw [hmin] at hc
    exact ⟨by omega, hc⟩
  · rintro ⟨hC0, hSC⟩
    exact ⟨_, (strcpy_ok_iff w d s C Cs exp file line _).2
      ⟨by omega, S, hSn, hS, by omega, by omega, rfl⟩⟩
  · intro d' hd'
    obtain ⟨-, S', hS', -, -, -, rfl⟩ :=
      (strcpy_ok_iff w d s C Cs exp file line d').1 hd'
    rw [hSn] at hS'
    cases hS'
    rw [hmin]
    refine ⟨copied_terminated d s S S hs.2 (Nat.le_refl S) (by omega), fun i hi => ?_⟩
    have hlen : (s.take S).length = S := by
      rw [List.length_take]
      omega
    rw [List.getElem?_append_left (by omega), List.getElem?_take_of_lt hi]
  · intro hC0
    subst hC0
    exact strcpy_zero_capacity w (some d) (some s) Cs exp file line
  · intro hC0 hSC
    have hd : 0 < d.length := by omega
    have hz : TerminatedAt (d.set 0 0) 0 :=
      ⟨List.getElem?_set_self (by omega), fun i hi => absurd hi (Nat.not_lt_zero i)⟩
    rw [strcpy_unfold w d C (some s) Cs exp file line (by omega) hd]
    exact strncat_eval_fatal w (d.set 0 0) s C Cs 0 S (2 ^ w - 1) exp file line hz hC0 hs hS
      (by omega) (by omega)

/-- C3, at capacity 8 and source "0123456789": the copy ends in `abortf_`, it is not cut
to 7 characters. -/
theorem strcpy_safe_succeeds_iff_witness :
    (8 ≤ [1, 2, 3, 4, 5, 6, 7, 8].length ∧
      TerminatedAt [48, 49, 50, 51, 52, 53, 54, 55, 56, 57, 0] 10 ∧ 10 < 11 ∧ 11 < 2 ^ 64 ∧
      0 < 8 ∧ ¬ 10 < 8) ∧
    strcpy_safe_ 64 (some [1, 2, 3, 4, 5, 6, 7, 8]) 8
      (some [48, 49, 50, 51, 52, 53, 54, 55, 56, 57, 0]) 11
      "overflow while copying" "htslib.c" 200
      = Outcome.fatal (some ([1, 2, 3, 4, 5, 6, 7, 8].set 0 0))
          ⟨"overflow while copying", "htslib.c", 200⟩ :=
  ⟨⟨by decide, by decide, by decide, by decide, by decide, by decide⟩,
   (strcpy_safe_succeeds_iff 64 [1, 2, 3, 4, 5, 6, 7, 8]
      [48, 49, 50, 51, 52, 53, 54, 55, 56, 57, 0] 8 11 10
      "overflow while copying" "htslib.c" 200
      (by decide) (by decide) (by decide) (by decide)).2.2.2 (by decide) (by decide)⟩

/-- C5. For every capacity `c`: `strlen_safe_` on `NULL` ends in `abortf_`; on a byte
sequence it returns `n` exactly when `n < c`, byte `n` is the terminator and no byte before
`n` is one (so the result is strictly below the capacity); it ends in `abortf_` exactly
when the sequence has `c` first bytes and none of them is the terminator; and with `c = 0`
every call ends in `abortf_`. -/
theorem strlen_safe_spec (c : Nat) (file : String) (line : Int) :
    strlen_safe_ none c file line
      = Ret.fatal ⟨"source != NULL", FILE_htssafe_h, 138⟩ ∧
    (∀ s n, strlen_safe_ (some s) c file line = Ret.ok n ↔ n < c ∧ TerminatedAt s n) ∧
    (∀ s, (∃ dg, strlen_safe_ (some s) c file line = Ret.fatal dg)
        ↔ c ≤ s.length ∧ Unterminated s c) ∧
    (∀ s, c ≤ s.length → Unterminated s c →
        strlen_safe_ (some s) c file line
          = Ret.fatal ⟨"size < sizeof_source", FILE_htssafe_h, 140⟩) ∧
    (c = 0 → ∀ p, ∃ dg, strlen_safe_ p c file line = Ret.fatal dg) := by
  have hunterm : ∀ s, c ≤ s.length → Unterminated s c →
      strlen_safe_ (some s) c file line
        = Ret.fatal ⟨"size < sizeof_source", FILE_htssafe_h, 140⟩ := by
    intro s hl hu
    exact strlen_safe_fatal s c c file line (strnlen_unterminated s c hl hu) (Nat.lt_irrefl c)
  refine ⟨strlen_safe_null c file line, ?_, ?_, hunterm, ?_⟩
  · intro s n
    rw [strlen_safe_ok_iff]
    constructor
    · rintro ⟨h, hn⟩
      exact ⟨hn, strnlen_lt_terminated s c n h hn⟩
    · rintro ⟨hn, h⟩
      exact ⟨strnlen_terminated s c n h hn, hn⟩
  · intro s
    constructor
    · rintro ⟨dg, h⟩
      cases hs : strnlen s c with
      | none =>
        rw [strlen_safe_ub s c file line hs] at h
        cases h
      | some k =>
        by_cases hk : k < c
        · rw [strlen_safe_ok s c k file line hs hk] at h
          cases h
        · have hle := strnlen_le s c k hs
          have hkc : k = c := by omega
          subst hkc
          exact ⟨strnlen_le_length s k k hs, strnlen_unterminated_prefix s k k hs⟩
    · rintro ⟨hl, hu⟩
      exact ⟨_, hunterm s hl hu⟩
  · intro hc p
    subst hc
    cases p with
    | none => exact ⟨_, strlen_safe_null 0 file line⟩
    | some s =>
      exact ⟨_, hunterm s (Nat.zero_le _) (fun i hi => absurd hi (Nat.not_lt_zero i))⟩

/-- C5, on the 4-byte sequence "abc" with capacity 4 (length 3) and on four bytes without
a terminator (fatal). -/
theorem strlen_safe_spec_witness :
    strlen_safe_ (some [97, 98, 99, 0]) 4 "htslib.c" 10 = Ret.ok 3 ∧
    strlen_safe_ (some [97, 98, 99, 100]) 4 "htslib.c" 10
      = Ret.fatal ⟨"size < sizeof_source", FILE_htssafe_h, 140⟩ :=
  ⟨((strlen_safe_spec 4 "htslib.c" 10).2.1 [97, 98, 99, 0] 3).2 ⟨by decide, by decide⟩,
   (strlen_safe_spec 4 "htslib.c" 10).2.2.2.1 [97, 98, 99, 100] (by decide) (by decide)⟩

/-- C6. A source whose first `sizeof_source` bytes hold no terminator: `strncat_safe_`
ends in `abortf_` for every destination pointer, capacity and count limit (`0` and limits
below the source capacity included), the destination untouched; `strcpy_safe_` ends in
`abortf_` for every destination object and capacity (an object with the capacity zero
check passed has a first byte). -/
theorem unterminated_source_fatal (w : Nat) (s : List Nat) (Cs : Nat)
    (exp file : String) (line : Int)
    (hlen : Cs ≤ s.length) (hu : Unterminated s Cs) :
    (∀ (dest : Option (List Nat)) (C n : Nat),
      strncat_safe_ w dest C (some s) Cs n exp file line
        = Outcome.fatal dest ⟨"size < sizeof_source", FILE_htssafe_h, 140⟩) ∧
    (∀ (d : List Nat) (C : Nat), (C ≠ 0 → d ≠ []) →
      ∃ m dg, strcpy_safe_ w (some d) C (some s) Cs exp file line = Outcome.fatal m dg) := by
  have hS : strnlen s Cs = some Cs := strnlen_unterminated s Cs hlen hu
  have hcat : ∀ (dest : Option (List Nat)) (C n : Nat),
      strncat_safe_ w dest C (some s) Cs n exp file line
        = Outcome.fatal dest ⟨"size < sizeof_source", FILE_htssafe_h, 140⟩ :=
    fun dest C n =>
      strncat_source_fatal w dest C s Cs Cs n exp file line hS (Nat.lt_irrefl Cs)
  refine ⟨hcat, fun d C hd => ?_⟩
  by_cases hC : C = 0
  · subst hC
    exact ⟨_, _, strcpy_zero_capacity w (some d) (some s) Cs exp file line⟩
  · have hpos : 0 < d.length := List.length_pos.mpr (hd hC)
    rw [strcpy_unfold w d C (some s) Cs exp file line hC hpos]
    exact ⟨_, _, hcat _ _ _⟩

/-- C6, with a 4-byte source "abcd" that has no terminator, count limit 0, and a
destination of capacity 8. -/
theorem unterminated_source_fatal_witness :
    (4 ≤ [97, 98, 99, 100].length ∧ Unterminated [97, 98, 99, 100] 4) ∧
    strncat_safe_ 64 (some [97, 0, 0, 0, 0, 0, 0, 0]) 8 (some [97, 98, 99, 100]) 4 0
      "overflow while appending" "htslib.c" 100
      = Outcome.fatal (some [97, 0, 0, 0, 0, 0, 0, 0])
          ⟨"size < sizeof_source", FILE_htssafe_h, 140⟩ :=
  ⟨⟨by decide, by decide⟩,
   (unterminated_source_fatal 64 [97, 98, 99, 100] 4 "overflow while appending" "htslib.c" 100
      (by decide) (by decide)).1 (some [97, 0, 0, 0, 0, 0, 0, 0]) 8 0⟩

/-- C7. Round trip: for a destination of capacity `C` (a `size_t`) and a source terminated
at offset `S < C`, whenever `strcpy_safe_` succeeds, `strlen_safe_` on the destination with
capacity `C` succeeds and returns `S`; and the copy does succeed when the destination
object has the capacity `C` and the source is terminated inside its own capacity. -/
theorem strcpy_then_strlen (w : Nat) (d s : List Nat) (C Cs S : Nat)
    (exp file : String) (line : Int) (file2 : String) (line2 : Int)
    (hs : TerminatedAt s S) (hSC : S < C) (hC2 : C < 2 ^ w) :
    (∀ d', strcpy_safe_ w (some d) C (some s) Cs exp file line = Outcome.ok d' →
        strlen_safe_ (some d') C file2 line2 = Ret.ok S) ∧
    (C ≤ d.length → S < Cs →
        ∃ d', strcpy_safe_ w (some d) C (some s) Cs exp file line = Outcome.ok d') := by
  have hmin : min S (2 ^ w - 1) = S := Nat.min_eq_left (by omega)
  have hSs : S < s.length := hs.lt_length
  constructor
  · intro d' hd'
    obtain ⟨-, S', hS', hSlt, -, -, rfl⟩ :=
      (strcpy_ok_iff w d s C Cs exp file line d').1 hd'
    have e : S' = S := (strnlen_lt_terminated s Cs S' hS' hSlt).unique hs
    subst e
    rw [hmin]
    exact strlen_safe_ok _ C S' file2 line2
      (strnlen_terminated _ C S'
        (copied_terminated d s S' S' hs.2 (Nat.le_refl S') (by omega)) hSC) hSC
  · intro hC hS
    exact ⟨_, (strcpy_ok_iff w d s C Cs exp file line _).2
      ⟨by omega, S, strnlen_terminated s Cs S hs hS, hS, by omega, by omega, rfl⟩⟩

/-- C7, copying "abc" into a destination of capacity 8 that held no terminator. -/
theorem strcpy_then_strlen_witness :
    (TerminatedAt [97, 98, 99, 0] 3 ∧ 3 < 8 ∧ 8 < 2 ^ 64 ∧
      8 ≤ [1, 2, 3, 4, 5, 6, 7, 8].length ∧ 3 < 4 ∧
      strcpy_safe_ 64 (some [1, 2, 3, 4, 5, 6, 7, 8]) 8 (some [97, 98, 99, 0]) 4
        "overflow while copying" "htslib.c" 200 = Outcome.ok [97, 98, 99, 0, 5, 6, 7, 8]) ∧
    strlen_safe_ (some [97, 98, 99, 0, 5, 6, 7, 8]) 8 "htslib.c" 201 = Ret.ok 3 ∧
    (∃ d', strcpy_safe_ 64 (some [1, 2, 3, 4, 5, 6, 7, 8]) 8 (some [97, 98, 99, 0]) 4
        "overflow while copying" "htslib.c" 200 = Outcome.ok d') :=
  have h := strcpy_then_strlen 64 [1, 2, 3, 4, 5, 6, 7, 8] [97, 98, 99, 0] 8 4 3
    "overflow while copying" "htslib.c" 200 "htslib.c" 201
    (by decide) (by decide) (by decide)
  ⟨⟨by decide, by decide, by decide, by decide, by decide, by decide⟩,
   h.1 [97, 98, 99, 0, 5, 6, 7, 8] (by decide), h.2 (by decide) (by decide)⟩

/-- C8. `strcpy_safe_` is idempotent: when the copy of a source (an object of its own,
as everywhere in the embedding) into a destination succeeds and leaves `d1`, the same copy
performed on `d1` succeeds again and leaves `d1`, byte for byte. -/
theorem strcpy_safe_idempotent (w : Nat) (d s : List Nat) (C Cs : Nat)
    (exp file : String) (line : Int) (d1 : List Nat)
    (h : strcpy_safe_ w (some d) C (some s) Cs exp file line = Outcome.ok d1) :
    strcpy_safe_ w (some d1) C (some s) Cs exp file line = Outcome.ok d1 := by
  obtain ⟨hC, S, hS, hSlt, hc, hkd, hd1⟩ := (strcpy_ok_iff w d s C Cs exp file line d1).1 h
  have hSs : S < s.length := (strnlen_lt_terminated s Cs S hS hSlt).lt_length
  have hlen : (s.take (min S (2 ^ w - 1))).length = min S (2 ^ w - 1) := by
    rw [List.length_take]
    have := Nat.min_le_left S (2 ^ w - 1)
    omega
  have hdrop : d1.drop (min S (2 ^ w - 1) + 1) = d.drop (min S (2 ^ w - 1) + 1) := by
    rw [hd1]
    apply List.ext_getElem?
    intro i
    rw [List.getElem?_drop, List.getElem?_append_right (by omega), hlen]
    have e : min S (2 ^ w - 1) + 1 + i - min S (2 ^ w - 1) = i + 1 := by omega
    rw [e, List.getElem?_cons_succ]
  have hd1len : min S (2 ^ w - 1) < d1.length := by
    rw [hd1, List.length_append, hlen, List.length_cons]
    omega
  refine (strcpy_ok_iff w d1 s C Cs exp file line d1).2 ⟨hC, S, hS, hSlt, hc, hd1len, ?_⟩
  rw [hdrop]
  exact hd1

/-- C8, copying "abc" twice into a destination of capacity 8. -/
theorem strcpy_safe_idempotent_witness :
    strcpy_safe_ 64 (some [1, 2, 3, 4, 5, 6, 7, 8]) 8 (some [97, 98, 99, 0]) 4
        "overflow while copying" "htslib.c" 200 = Outcome.ok [97, 98, 99, 0, 5, 6, 7, 8] ∧
    strcpy_safe_ 64 (some [97, 98, 99, 0, 5, 6, 7, 8]) 8 (some [97, 98, 99, 0]) 4
        "overflow while copying" "htslib.c" 200 = Outcome.ok [97, 98, 99, 0, 5, 6, 7, 8] :=
  ⟨by decide,
   strcpy_safe_idempotent 64 [1, 2, 3, 4, 5, 6, 7, 8] [97, 98, 99, 0] 8 4
     "overflow while copying" "htslib.c" 200 [97, 98, 99, 0, 5, 6, 7, 8] (by decide)⟩

/-- C9. For every destination whose content is terminated inside its capacity (a `size_t`)
and every count limit `M`: `strncat_safe_` with a source whose first byte is the
terminator, inside a source capacity of at least one byte, returns normally and leaves
every byte of the destination as it was. -/
theorem strncat_safe_empty_source (w : Nat) (d s : List Nat) (C Cs L M : Nat)
    (exp file : String) (line : Int)
    (hd : TerminatedAt d L) (hL : L < C) (hC2 : C < 2 ^ w)
    (hs : s[0]? = some 0) (hCs : 0 < Cs) :
    strncat_safe_ w (some d) C (some s) Cs M exp file line = Outcome.ok d := by
  have hs0 : TerminatedAt s 0 := ⟨hs, fun i hi => absurd hi (Nat.not_lt_zero i)⟩
  have hLd : L < d.length := hd.lt_length
  have hset : d.set L 0 = d := by
    apply List.ext_getElem?
    intro i
    by_cases hi : i = L
    · subst hi
      rw [List.getElem?_set_self hLd, hd.1]
    · rw [List.getElem?_set_ne (Ne.symm hi)]
  rw [strncat_after_lengths w d s C Cs L 0 M exp file line
    (strnlen_terminated s Cs 0 hs0 hCs) hCs (strnlen_terminated d C L hd hL) hL,
    Nat.zero_min, Nat.add_zero, Nat.mod_eq_of_lt (by omega), if_pos hL]
  simp only [memcpy]
  rw [if_pos hLd, hset]

/-- C9, appending the empty string to "ab" in a destination of capacity 8. -/
theorem strncat_safe_empty_source_witness :
    (TerminatedAt [97, 98, 0, 1, 2, 3, 4, 5] 2 ∧ 2 < 8 ∧ 8 < 2 ^ 64 ∧
      [0, 9, 9][0]? = some 0 ∧ 0 < 3) ∧
    strncat_safe_ 64 (some [97, 98, 0, 1, 2, 3, 4, 5]) 8 (some [0, 9, 9]) 3 5
      "overflow while appending" "htslib.c" 100 = Outcome.ok [97, 98, 0, 1, 2, 3, 4, 5] :=
  ⟨⟨by decide, by decide, by decide, by decide, by decide⟩,
   strncat_safe_empty_source 64 [97, 98, 0, 1, 2, 3, 4, 5] [0, 9, 9] 8 3 2 5
     "overflow while appending" "htslib.c" 100
     (by decide) (by decide) (by decide) (by decide) (by decide)⟩

/-- C10. Whenever `strncat_safe_` ends in `abortf_` (null source or destination,
unterminated source or destination, or final length not below the capacity), the
destination held at that moment is the destination given to the call: no byte of it has
been written. -/
theorem strncat_safe_fatal_untouched (w : Nat) (dest : Option (List Nat)) (C : Nat)
    (source : Option (List Nat)) (Cs n : Nat) (exp file : String) (line : Int)
    (m : Option (List Nat)) (dg : Diag)
    (h : strncat_safe_ w dest C source Cs n exp file line = Outcome.fatal m dg) :
    m = dest := by
  cases hs : strlen_safe_ source Cs file line with
  | fatal dg1 =>
    simp only [strncat_safe_, hs] at h
    cases h
    rfl
  | ub =>
    simp only [strncat_safe_, hs] at h
    cases h
  | ok S =>
    cases hd : strlen_safe_ dest C file line with
    | fatal dg1 =>
      simp only [strncat_safe_, hs, hd] at h
      cases h
      rfl
    | ub =>
      simp only [strncat_safe_, hs, hd] at h
      cases h
    | ok L =>
      simp only [strncat_safe_, hs, hd, assertf__] at h
      by_cases hc : (L + if S ≤ n then S else n) % 2 ^ w < C
      · simp only [hc, decide_True, if_true] at h
        cases dest with
        | none => cases h
        | some dmem =>
          cases source with
          | none => cases h
          | some smem =>
            simp only at h
            cases hm : memcpy dmem L smem (if S ≤ n then S else n) with
            | none =>
              rw [hm] at h
              cases h
            | some dmem1 =>
              rw [hm] at h
              simp only at h
              by_cases hl : (L + if S ≤ n then S else n) % 2 ^ w < dmem1.length
              · rw [if_pos hl] at h
                cases h
              · rw [if_neg hl] at h
                cases h
      · simp only [hc, decide_False, if_false] at h
        cases h
        rfl

/-- C10, on the capacity-8 destination "ab" and the source "cdefgh": the fatal outcome
carries the destination unchanged. -/
theorem strncat_safe_fatal_untouched_witness :
    strncat_safe_ 64 (some [97, 98, 0, 1, 2, 3, 4, 5]) 8
        (some [99, 100, 101, 102, 103, 104, 0]) 7 (2 ^ 64 - 1)
        "overflow while appending" "htslib.c" 100
      = Outcome.fatal (some [97, 98, 0, 1, 2, 3, 4, 5])
          ⟨"overflow while appending", "htslib.c", 100⟩ ∧
    some [97, 98, 0, 1, 2, 3, 4, 5] = some [97, 98, 0, 1, 2, 3, 4, 5] :=
  ⟨by decide,
   strncat_safe_fatal_untouched 64 (some [97, 98, 0, 1, 2, 3, 4, 5]) 8
     (some [99, 100, 101, 102, 103, 104, 0]) 7 (2 ^ 64 - 1)
     "overflow while appending" "htslib.c" 100 (some [97, 98, 0, 1, 2, 3, 4, 5])
     ⟨"overflow while appending", "htslib.c", 100⟩ (by decide)⟩

/-- C11. A non-null destination object of capacity `C > 0` with any prior content: whenever
`strcpy_safe_` ends in `abortf_`, the destination held at that moment is the prior one with
byte 0 replaced by the terminator (the empty string; every byte at an offset of 1 or more
is unchanged).  This is the case when the source is null, when the source has no terminator
in its capacity, and when the source length is not below `C`. -/
theorem strcpy_safe_fatal_leaves_empty (w : Nat) (d : List Nat) (C : Nat)
    (source : Option (List Nat)) (Cs : Nat) (exp file : String) (line : Int)
    (hC : C ≤ d.length) (h0 : 0 < C) :
    (∀ m dg, strcpy_safe_ w (some d) C source Cs exp file line = Outcome.fatal m dg →
        m = some (d.set 0 0)) ∧
    ((d.set 0 0)[0]? = some 0 ∧ ∀ i, 1 ≤ i → (d.set 0 0)[i]? = d[i]?) ∧
    (source = none →
        strcpy_safe_ w (some d) C source Cs exp file line
          = Outcome.fatal (some (d.set 0 0)) ⟨"source != NULL", FILE_htssafe_h, 138⟩) ∧
    (∀ s, source = some s → Cs ≤ s.length → Unterminated s Cs →
        strcpy_safe_ w (some d) C source Cs exp file line
          = Outcome.fatal (some (d.set 0 0)) ⟨"size < sizeof_source", FILE_htssafe_h, 140⟩) ∧
    (∀ s S, source = some s → TerminatedAt s S → S < Cs → Cs < 2 ^ w → C ≤ S →
        strcpy_safe_ w (some d) C source Cs exp file line
          = Outcome.fatal (some (d.set 0 0)) ⟨exp, file, line⟩) := by
  have hd : 0 < d.length := by omega
  have hC0 : C ≠ 0 := by omega
  have hun := strcpy_unfold w d C source Cs exp file line hC0 hd
  refine ⟨fun m dg h => ?_, ⟨List.getElem?_set_self hd, fun i hi => ?_⟩, ?_, ?_, ?_⟩
  · exact (strcpy_fatal_state w d C source Cs exp file line m dg hC0 h).2
  · exact List.getElem?_set_ne (by omega)
  · intro hs
    subst hs
    rw [hun]
    exact strncat_source_null w _ C Cs _ exp file line
  · intro s hs hlen hu
    subst hs
    rw [hun]
    exact strncat_source_fatal w _ C s Cs Cs _ exp file line
      (strnlen_unterminated s Cs hlen hu) (Nat.lt_irrefl Cs)
  · intro s S hs hS hSlt hCs hCS
    subst hs
    have hz : TerminatedAt (d.set 0 0) 0 :=
      ⟨List.getElem?_set_self hd, fun i hi => absurd hi (Nat.not_lt_zero i)⟩
    have hmin : min S (2 ^ w - 1) = S := Nat.min_eq_left (by omega)
    rw [hun]
    exact strncat_eval_fatal w (d.set 0 0) s C Cs 0 S (2 ^ w - 1) exp file line hz h0 hS hSlt
      (by omega) (by omega)

/-- C11, copying the 10-character "0123456789" into a capacity-8 destination that held
"abc": the fatal outcome carries the destination with byte 0 cleared. -/
theorem strcpy_safe_fatal_leaves_empty_witness :
    (8 ≤ [97, 98, 99, 0, 5, 6, 7, 8].length ∧ 0 < 8) ∧
    strcpy_safe_ 64 (some [97, 98, 99, 0, 5, 6, 7, 8]) 8
        (some [48, 49, 50, 51, 52, 53, 54, 55, 56, 57, 0]) 11
        "overflow while copying" "htslib.c" 200
      = Outcome.fatal (some [0, 98, 99, 0, 5, 6, 7, 8])
          ⟨"overflow while copying", "htslib.c", 200⟩ ∧
    some [0, 98, 99, 0, 5, 6, 7, 8] = some ([97, 98, 99, 0, 5, 6, 7, 8].set 0 0) :=
  ⟨⟨by decide, by decide⟩, by decide,
   (strcpy_safe_fatal_leaves_empty 64 [97, 98, 99, 0, 5, 6, 7, 8] 8
      (some [48, 49, 50, 51, 52, 53, 54, 55, 56, 57, 0]) 11
      "overflow while copying" "htslib.c" 200 (by decide) (by decide)).1
      (some [0, 98, 99, 0, 5, 6, 7, 8]) ⟨"overflow while copying", "htslib.c", 200⟩
      (by decide)⟩

/-- C13. Clipping of the count limit.  For a source of true length `S` (its capacity a
`size_t`) and any count limit `n ≥ S`, `strncat_safe_` has the same outcome, destination
bytes included, as with the limit `(size_t) -1`, for every destination pointer; that limit
is the one `strlcatbuff` passes, and `strcatbuff` on a destination it classifies as a
buffer.  On a valid destination object of capacity `C` all `S` source bytes are then
appended and the call succeeds if and only if `L + S < C`. -/
theorem strncat_safe_limit_clipped (w : Nat) (s : List Nat) (C Cs S n : Nat)
    (exp file : String) (line : Int)
    (hs : TerminatedAt s S) (hCs : Cs < 2 ^ w) (hn : S ≤ n) :
    (∀ dest, strncat_safe_ w dest C (some s) Cs n exp file line
        = strncat_safe_ w dest C (some s) Cs (2 ^ w - 1) exp file line) ∧
    (∀ gnuc P A B Sz F Ln, strlcatbuff gnuc P w A B Sz F Ln
        = Dispatch.checked_cat Sz (source_capacity gnuc P w B.ty) (2 ^ w - 1)
            ("overflow while copying '" ++ B.text ++ "' to '" ++ A.text ++ "'") F Ln) ∧
    (∀ gnuc P A B F Ln, HTS_IS_CHAR_BUFFER gnuc P A.ty = true →
        strcatbuff gnuc P w A B F Ln
          = Dispatch.checked_cat (sizeof P A.ty) (source_capacity gnuc P w B.ty) (2 ^ w - 1)
              ("overflow while appending '" ++ B.text ++ "' to '" ++ A.text ++ "'") F Ln) ∧
    (∀ d L, TerminatedAt d L → L < C → C ≤ d.length → d.length < 2 ^ w → S < Cs →
        ((∃ d', strncat_safe_ w (some d) C (some s) Cs n exp file line = Outcome.ok d')
            ↔ L + S < C) ∧
        (∀ d', strncat_safe_ w (some d) C (some s) Cs n exp file line = Outcome.ok d' →
            TerminatedAt d' (L + S) ∧ ∀ i, i < S → d'[L + i]? = s[i]?)) := by
  have hmin : min S n = S := Nat.min_eq_left hn
  refine ⟨fun dest => ?_, fun gnuc P A B Sz F Ln => rfl, fun gnuc P A B F Ln hA => ?_, ?_⟩
  · exact strncat_limit_eq w dest C s Cs S n (2 ^ w - 1) exp file line hs (fun _ => hn)
      (fun h => by omega)
  · simp [strcatbuff, strncatbuff, HTS_IS_NOT_CHAR_BUFFER, hA]
  · intro d L hd hL hC hsize hS
    have hpost : ∀ d', strncat_safe_ w (some d) C (some s) Cs n exp file line = Outcome.ok d' →
        L + S < C ∧ L + S < d.length ∧ ∃ d1, memcpy d L s S = some d1 ∧ d' = d1.set (L + S) 0 := by
      intro d' h
      have := strncat_ok_post w d s C Cs L S n exp file line d' hsize hd hs h
      rw [hmin] at this
      exact ⟨this.2.2.1, this.2.2.2.1, this.2.2.2.2⟩
    refine ⟨⟨?_, ?_⟩, ?_⟩
    · rintro ⟨d', h⟩
      exact (hpost d' h).1
    · intro hfit
      obtain ⟨d1, -, h⟩ := strncat_eval_ok w d s C Cs L S n exp file line hC hd hL hs hS
        (by rw [hmin]; omega) (by rw [hmin]; exact hfit)
      exact ⟨_, h⟩
    · intro d' h
      obtain ⟨-, hlt, d1, hm, rfl⟩ := hpost d' h
      refine ⟨appended_terminated d s d1 L S S hm hlt hd hs (Nat.le_refl S), fun i hi => ?_⟩
      rw [appended_getElem? d s d1 L S hm hlt, if_neg (by omega), if_pos (by omega)]
      congr 1
      omega

/-- C13, appending "cde" to "ab" in a capacity-8 destination with the count limit 3 and
with the limit `(size_t) -1`. -/
theorem strncat_safe_limit_clipped_witness :
    (TerminatedAt [99, 100, 101, 0] 3 ∧ 4 < 2 ^ 64 ∧ 3 ≤ 3) ∧
    strncat_safe_ 64 (some [97, 98, 0, 1, 2, 3, 4, 5]) 8 (some [99, 100, 101, 0]) 4 3
        "overflow" "htslib.c" 100
      = strncat_safe_ 64 (some [97, 98, 0, 1, 2, 3, 4, 5]) 8 (some [99, 100, 101, 0]) 4
          (2 ^ 64 - 1) "overflow" "htslib.c" 100 ∧
    strncat_safe_ 64 (some [97, 98, 0, 1, 2, 3, 4, 5]) 8 (some [99, 100, 101, 0]) 4 3
        "overflow" "htslib.c" 100 = Outcome.ok [97, 98, 99, 100, 101, 0, 4, 5] :=
  ⟨⟨by decide, by decide, by decide⟩,
   (strncat_safe_limit_clipped 64 [99, 100, 101, 0] 8 4 3 3 "overflow" "htslib.c" 100
      (by decide) (by decide) (by decide)).1 (some [97, 98, 0, 1, 2, 3, 4, 5]),
   by decide⟩

/-- C14. `assertf__` as a two-outcome step, for every message, file and line: with a true
condition it has no effect and returns; with a false condition the process is ended after
exactly these effects, in order: the callback called once with (message, file, line) if and
only if one is installed, the line "message failed at file:line" and a newline written to
the error stream, a flush of that stream, and `abort()`; with or without a callback, and
control does not return. -/
theorem assertf__two_outcomes (htsCallbackErr : Bool) (sexp file : String) (line : Int) :
    assertf__step htsCallbackErr true sexp file line = Step.returns ∧
    assertf__step htsCallbackErr false sexp file line
      = Step.terminated
          ((if htsCallbackErr then [Effect.callback sexp file line] else []) ++
            [Effect.fprintf_stderr (sexp ++ " failed at " ++ file ++ ":" ++ toString line ++ "\n"),
             Effect.fflush_stderr, Effect.abort]) := by
  constructor
  · simp [assertf__step, assertf__]
  · cases htsCallbackErr <;>
      simp [assertf__step, assertf__, abortf_, HTSSAFE_ABORT_FUNCTION, log_abort_]

/-- C15, refuted as stated: under the `sizeof` definition of `HTS_IS_CHAR_BUFFER`, with
pointers of 8 bytes, a destination `char[16]` and a source `char[8]`, `strncatbuff` and
`strcpybuff` pass the source capacity `(size_t) -1`, not `sizeof(B) = 8`, although `B` is a
char array. -/
theorem fallback_misses_pointer_sized_source :
    strncatbuff false 8 64 ⟨"dst", CType.char_array 16⟩ ⟨"src", CType.char_array 8⟩ 5
        "htslib.c" 100
      = Dispatch.checked_cat 16 (2 ^ 64 - 1) 5 "overflow while appending 'src' to 'dst'"
          "htslib.c" 100 ∧
    strcpybuff false 8 64 ⟨"dst", CType.char_array 16⟩ ⟨"src", CType.char_array 8⟩
        "htslib.c" 100
      = Dispatch.checked_cpy 16 (2 ^ 64 - 1) "overflow while copying 'src' to 'dst'"
          "htslib.c" 100 ∧
    sizeof 8 (CType.char_array 8) = 8 ∧ 2 ^ 64 - 1 ≠ 8 := by
  refine ⟨by decide, by decide, rfl, by decide⟩

/-- C15, amended.  For a char array `A` of a size `n` other than the size `P` of a pointer,
under either definition of `HTS_IS_CHAR_BUFFER`: `strncatbuff` and `strcpybuff` expand to
the checked `strncat_safe_` and `strcpy_safe_` with destination capacity `sizeof(A)`; the
source capacity is `sizeof(B)` when `B` is a char array that `HTS_IS_CHAR_BUFFER` sees (any
under the GNU type test, those of a size other than `P` under the `sizeof` test) and
`(size_t) -1` otherwise; for a pointer `A` they expand to the unchecked `strncat` and
`strcpy`; and the two definitions classify `A` and every char pointer alike. -/
theorem macro_dispatch (gnuc : Bool) (P w n : Nat) (a : String) (B : Arg) (N : Nat)
    (F : String) (Ln : Int) (hn : n ≠ P) :
    strncatbuff gnuc P w ⟨a, CType.char_array n⟩ B N F Ln
      = Dispatch.checked_cat n (source_capacity gnuc P w B.ty) N
          ("overflow while appending '" ++ B.text ++ "' to '" ++ a ++ "'") F Ln ∧
    strcpybuff gnuc P w ⟨a, CType.char_array n⟩ B F Ln
      = Dispatch.checked_cpy n (source_capacity gnuc P w B.ty)
          ("overflow while copying '" ++ B.text ++ "' to '" ++ a ++ "'") F Ln ∧
    (∀ m, source_capacity gnuc P w (CType.char_array m)
        = if gnuc = true ∨ m ≠ P then m else 2 ^ w - 1) ∧
    source_capacity gnuc P w CType.char_pointer = 2 ^ w - 1 ∧
    strncatbuff gnuc P w ⟨a, CType.char_pointer⟩ B N F Ln = Dispatch.libc_strncat N ∧
    strcpybuff gnuc P w ⟨a, CType.char_pointer⟩ B F Ln = Dispatch.libc_strcpy ∧
    HTS_IS_CHAR_BUFFER true P (CType.char_array n)
      = HTS_IS_CHAR_BUFFER false P (CType.char_array n) ∧
    HTS_IS_CHAR_BUFFER true P CType.char_pointer
      = HTS_IS_CHAR_BUFFER false P CType.char_pointer := by
  refine ⟨?_, ?_, fun m => ?_, ?_, ?_, ?_, ?_, ?_⟩
  · cases gnuc <;>
      simp [strncatbuff, HTS_IS_NOT_CHAR_BUFFER, HTS_IS_CHAR_BUFFER, sizeof, hn]
  · cases gnuc <;>
      simp [strcpybuff, HTS_IS_NOT_CHAR_BUFFER, HTS_IS_CHAR_BUFFER, sizeof, hn]
  · cases gnuc
    · by_cases hm : m = P <;>
        simp [source_capacity, HTS_IS_NOT_CHAR_BUFFER, HTS_IS_CHAR_BUFFER, sizeof, hm]
    · simp [source_capacity, HTS_IS_NOT_CHAR_BUFFER, HTS_IS_CHAR_BUFFER, sizeof]
  · cases gnuc <;>
      simp [source_capacity, HTS_IS_NOT_CHAR_BUFFER, HTS_IS_CHAR_BUFFER, sizeof]
  · cases gnuc <;>
      simp [strncatbuff, HTS_IS_NOT_CHAR_BUFFER, HTS_IS_CHAR_BUFFER, sizeof]
  · cases gnuc <;>
      simp [strcpybuff, HTS_IS_NOT_CHAR_BUFFER, HTS_IS_CHAR_BUFFER, sizeof]
  · simp [HTS_IS_CHAR_BUFFER, sizeof, hn]
  · simp [HTS_IS_CHAR_BUFFER, sizeof]

/-- C15 amended, for a destination `char dst[16]` and a source `char lit[4]`, with
pointers of 8 bytes and the GNU type test. -/
theorem macro_dispatch_witness :
    16 ≠ 8 ∧
    strncatbuff true 8 64 ⟨"dst", CType.char_array 16⟩ ⟨"lit", CType.char_array 4⟩ 5
        "htslib.c" 100
      = Dispatch.checked_cat 16 4 5 "overflow while appending 'lit' to 'dst'"
          "htslib.c" 100 :=
  ⟨by decide,
   ((macro_dispatch true 8 64 16 "dst" ⟨"lit", CType.char_array 4⟩ 5 "htslib.c" 100
      (by decide)).1).trans (by decide)⟩

/-- C18, refuted as stated: with a 16-bit `size_t`, `dest_len = 40000 < sizeof_dest = 40001`
and `source_len = 30000 < sizeof_source = 30001`, the computed `dest_final_len` is
`70000 mod 65536 = 4464`, which passes the check `dest_final_len < sizeof_dest`, while the
mathematical sum 70000 is not below 40001. -/
theorem dest_final_len_wraps_into_accepted :
    40000 < 40001 ∧ 30000 < 30001 ∧ 40001 < 2 ^ 16 ∧ 30001 < 2 ^ 16 ∧
    dest_final_len 16 40000 (source_copy 30000 65535) = 4464 ∧
    dest_final_len 16 40000 (source_copy 30000 65535) < 40001 ∧
    ¬ 40000 + min 30000 65535 < 40001 := by
  refine ⟨by decide, by decide, by decide, by decide, by decide, by decide, by decide⟩

/-- C18, amended.  With `size_t` as the integers modulo `2 ^ w`: whenever the mathematical
sum `dest_len + min source_len n` is below `2 ^ w`, a computed `dest_final_len` that passes
the check `dest_final_len < sizeof_dest` means that the mathematical sum is below
`sizeof_dest` too; and the sum is below `2 ^ w` for all `dest_len < sizeof_dest` and
`source_len < sizeof_source` when `sizeof_dest + sizeof_source ≤ 2 ^ w + 1`. -/
theorem dest_final_len_sound (w dest_len source_len n sizeof_dest sizeof_source : Nat) :
    (dest_len + min source_len n < 2 ^ w →
      dest_final_len w dest_len (source_copy source_len n) < sizeof_dest →
      dest_len + min source_len n < sizeof_dest) ∧
    (dest_len < sizeof_dest → source_len < sizeof_source →
      sizeof_dest + sizeof_source ≤ 2 ^ w + 1 →
      dest_len + min source_len n < 2 ^ w) := by
  have e : source_copy source_len n = min source_len n := Nat.min_def.symm
  constructor
  · intro hsum hpass
    rw [dest_final_len, e, Nat.mod_eq_of_lt hsum] at hpass
    exact hpass
  · intro h1 h2 h3
    have := Nat.min_le_left source_len n
    omega

/-- C18 amended, at a 64-bit `size_t` with lengths 2 and 6 and capacity 16. -/
theorem dest_final_len_sound_witness :
    (2 + min 6 (2 ^ 64 - 1) < 2 ^ 64 ∧
      dest_final_len 64 2 (source_copy 6 (2 ^ 64 - 1)) < 16) ∧
    2 + min 6 (2 ^ 64 - 1) < 16 :=
  ⟨⟨by decide, by decide⟩,
   (dest_final_len_sound 64 2 6 (2 ^ 64 - 1) 16 7).1 (by decide) (by decide)⟩

/-- C20. Location reported by the length and zero-capacity checks.  A fatal `strlen_safe_`
hands `abortf_` the text "source != NULL" (null sequence) or "size < sizeof_source"
(no terminator in the capacity), and `strcpy_safe_` on `sizeof_dest == 0` the text
"sizeof_dest != 0", each with the file and line of the assertion inside htssafe.h; the
`file` and `line` arguments of the caller have no influence: two calls that differ only in
them give the same result. -/
theorem length_check_location (w : Nat) (p dest source : Option (List Nat)) (c Cs : Nat)
    (exp exp2 file file2 : String) (line line2 : Int) :
    (∀ dg, strlen_safe_ p c file line = Ret.fatal dg →
        (p = none ∧ dg = ⟨"source != NULL", "htssafe.h", 138⟩) ∨
        (p ≠ none ∧ dg = ⟨"size < sizeof_source", "htssafe.h", 140⟩)) ∧
    strlen_safe_ p c file line = strlen_safe_ p c file2 line2 ∧
    strcpy_safe_ w dest 0 source Cs exp file line
      = Outcome.fatal dest ⟨"sizeof_dest != 0", "htssafe.h", 161⟩ ∧
    strcpy_safe_ w dest 0 source Cs exp file line
      = strcpy_safe_ w dest 0 source Cs exp2 file2 line2 := by
  refine ⟨fun dg h => ?_, rfl, ?_, ?_⟩
  · rcases strlen_safe_fatal_diag p c file line dg h with ⟨hp, e⟩ | ⟨s, hp, -, e⟩
    · exact Or.inl ⟨hp, e⟩
    · refine Or.inr ⟨?_, e⟩
      rw [hp]
      intro hne
      cases hne
  · exact strcpy_zero_capacity w dest source Cs exp file line
  · rw [strcpy_zero_capacity, strcpy_zero_capacity]

/-- C20, on four bytes without a terminator read with capacity 4 from two call sites. -/
theorem length_check_location_witness :
    strlen_safe_ (some [97, 98, 99, 100]) 4 "htslib.c" 10
      = Ret.fatal ⟨"size < sizeof_source", "htssafe.h", 140⟩ ∧
    ((some [97, 98, 99, 100] : Option (List Nat)) = none ∧
        (⟨"size < sizeof_source", "htssafe.h", 140⟩ : Diag)
          = ⟨"source != NULL", "htssafe.h", 138⟩ ∨
      (some [97, 98, 99, 100] : Option (List Nat)) ≠ none ∧
        (⟨"size < sizeof_source", "htssafe.h", 140⟩ : Diag)
          = ⟨"size < sizeof_source", "htssafe.h", 140⟩) ∧
    strlen_safe_ (some [97, 98, 99, 100]) 4 "htslib.c" 10
      = strlen_safe_ (some [97, 98, 99, 100]) 4 "htsparse.c" 77 :=
  have h := length_check_location 64 (some [97, 98, 99, 100]) none none 4 0
    "e" "e2" "htslib.c" "htsparse.c" 10 77
  ⟨by decide, h.1 _ (by decide), h.2.1⟩

/-- C19. Successive appends compose.  For a valid destination object of capacity `C` and
content length `L`, terminated sources `sa` and `sb` of lengths `A` and `B`, and a
terminated source `sc` holding the `A` bytes of `sa` followed by the `B` bytes of `sb`, all
appended with the count limit `(size_t) -1`: appending `sa` and then `sb` both succeed if
and only if `L + A + B < C`, if and only if the single append of `sc` succeeds, and then the
two resulting destinations are equal byte for byte.  (Capacities and the object size are
`size_t` values; sources are objects apart from the destination.) -/
theorem appends_compose (w : Nat) (d sa sb sc : List Nat) (C Ca Cb Cc L A B : Nat)
    (exp file : String) (line : Int)
    (hC : C ≤ d.length) (hsize : d.length < 2 ^ w) (hd : TerminatedAt d L) (hL : L < C)
    (ha : TerminatedAt sa A) (hA : A < Ca) (hCa : Ca < 2 ^ w)
    (hb : TerminatedAt sb B) (hB : B < Cb) (hCb : Cb < 2 ^ w)
    (hc : TerminatedAt sc (A + B)) (hAB : A + B < Cc) (hCc : Cc < 2 ^ w)
    (hc1 : ∀ j, j < A → sc[j]? = sa[j]?) (hc2 : ∀ j, j < B → sc[A + j]? = sb[j]?) :
    ((∃ d1 d2,
        strncat_safe_ w (some d) C (some sa) Ca (2 ^ w - 1) exp file line = Outcome.ok d1 ∧
        strncat_safe_ w (some d1) C (some sb) Cb (2 ^ w - 1) exp file line = Outcome.ok d2)
      ↔ L + A + B < C) ∧
    ((∃ d3, strncat_safe_ w (some d) C (some sc) Cc (2 ^ w - 1) exp file line = Outcome.ok d3)
      ↔ L + A + B < C) ∧
    (∀ d1 d2 d3,
        strncat_safe_ w (some d) C (some sa) Ca (2 ^ w - 1) exp file line = Outcome.ok d1 →
        strncat_safe_ w (some d1) C (some sb) Cb (2 ^ w - 1) exp file line = Outcome.ok d2 →
        strncat_safe_ w (some d) C (some sc) Cc (2 ^ w - 1) exp file line = Outcome.ok d3 →
        d2 = d3) := by
  have hdl : L < d.length := hd.lt_length
  have hsa : A < sa.length := ha.lt_length
  have hsb : B < sb.length := hb.lt_length
  have hsc : A + B < sc.length := hc.lt_length
  -- the first append, read back
  have first : ∀ d1,
      strncat_safe_ w (some d) C (some sa) Ca (2 ^ w - 1) exp file line = Outcome.ok d1 →
      L + A < C ∧ ∃ m1, memcpy d L sa A = some m1 ∧ d1 = m1.set (L + A) 0 ∧
        d1.length = d.length ∧ TerminatedAt d1 (L + A) := by
    intro d1 h
    obtain ⟨hfit, m1, hm1, rfl⟩ := (strncat_full_ok_iff w d sa C Ca L A (2 ^ w - 1)
      exp file line d1 hC hsize hd hL ha hA (by omega)).1 h
    refine ⟨hfit, m1, hm1, rfl, ?_, ?_⟩
    · rw [List.length_set]
      exact (memcpy_spec _ _ _ _ _ hm1).1
    · exact appended_terminated d sa m1 L A A hm1 (by omega) hd ha (Nat.le_refl A)
  refine ⟨⟨?_, ?_⟩, ⟨?_, ?_⟩, ?_⟩
  · rintro ⟨d1, d2, h1, h2⟩
    obtain ⟨hfit1, m1, -, -, hlen1, ht1⟩ := first d1 h1
    exact ((strncat_full_ok_iff w d1 sb C Cb (L + A) B (2 ^ w - 1) exp file line d2
      (by omega) (by omega) ht1 hfit1 hb hB (by omega)).1 h2).1
  · intro hfit
    obtain ⟨m1, hm1⟩ := memcpy_isSome A d L sa (by omega) (Or.inr (by omega))
    have h1 := (strncat_full_ok_iff w d sa C Ca L A (2 ^ w - 1) exp file line
      (m1.set (L + A) 0) hC hsize hd hL ha hA (by omega)).2 ⟨by omega, m1, hm1, rfl⟩
    obtain ⟨hfit1, -, -, -, hlen1, ht1⟩ := first _ h1
    obtain ⟨m2, hm2⟩ := memcpy_isSome B (m1.set (L + A) 0) (L + A) sb (by omega)
      (Or.inr (by omega))
    exact ⟨_, _, h1, (strncat_full_ok_iff w (m1.set (L + A) 0) sb C Cb (L + A) B (2 ^ w - 1)
      exp file line (m2.set (L + A + B) 0) (by omega) (by omega) ht1 hfit1 hb hB
      (by omega)).2 ⟨hfit, m2, hm2, rfl⟩⟩
  · rintro ⟨d3, h3⟩
    have := ((strncat_full_ok_iff w d sc C Cc L (A + B) (2 ^ w - 1) exp file line d3
      hC hsize hd hL hc hAB (by omega)).1 h3).1
    omega
  · intro hfit
    obtain ⟨m3, hm3⟩ := memcpy_isSome (A + B) d L sc (by omega) (Or.inr (by omega))
    exact ⟨_, (strncat_full_ok_iff w d sc C Cc L (A + B) (2 ^ w - 1) exp file line
      (m3.set (L + (A + B)) 0) hC hsize hd hL hc hAB (by omega)).2
      ⟨by omega, m3, hm3, rfl⟩⟩
  · intro d1 d2 d3 h1 h2 h3
    obtain ⟨hfit1, m1, hm1, e1, hlen1, ht1⟩ := first d1 h1
    obtain ⟨hfit2, m2, hm2, e2⟩ := (strncat_full_ok_iff w d1 sb C Cb (L + A) B (2 ^ w - 1)
      exp file line d2 (by omega) (by omega) ht1 hfit1 hb hB (by omega)).1 h2
    obtain ⟨hfit3, m3, hm3, e3⟩ := (strncat_full_ok_iff w d sc C Cc L (A + B) (2 ^ w - 1)
      exp file line d3 hC hsize hd hL hc hAB (by omega)).1 h3
    have g1 := appended_getElem? d sa m1 L A hm1 (by omega)
    have g2 := appended_getElem? d1 sb m2 (L + A) B hm2 (by omega)
    have g3 := appended_getElem? d sc m3 L (A + B) hm3 (by omega)
    rw [← e1] at g1
    rw [← e2] at g2
    rw [← e3] at g3
    apply List.ext_getElem?
    intro i
    rw [g2 i, g3 i]
    by_cases hi1 : i = L + A + B
    · rw [if_pos hi1, if_pos (show i = L + (A + B) by omega)]
    · rw [if_neg hi1, if_neg (show ¬ i = L + (A + B) by omega)]
      by_cases hi2 : L + A ≤ i ∧ i < L + A + B
      · rw [if_pos hi2, if_pos (show L ≤ i ∧ i < L + (A + B) by omega)]
        obtain ⟨j, rfl⟩ : ∃ j, i = L + A + j := ⟨i - (L + A), by omega⟩
        have e4 : L + A + j - (L + A) = j := by omega
        have e5 : L + A + j - L = A + j := by omega
        rw [e4, e5]
        exact (hc2 j (by omega)).symm
      · rw [if_neg hi2, g1 i]
        by_cases hi3 : L ≤ i ∧ i < L + A
        · rw [if_neg (show ¬ i = L + A by omega), if_pos hi3,
            if_pos (show L ≤ i ∧ i < L + (A + B) by omega)]
          exact (hc1 (i - L) (by omega)).symm
        · by_cases hi4 : i = L + A
          · omega
          · rw [if_neg hi4, if_neg hi3,
              if_neg (show ¬ (L ≤ i ∧ i < L + (A + B)) by omega)]

/-- C19, on the capacity-8 destination "ab" with the sources "cd", "ef" and "cdef". -/
theorem appends_compose_witness :
    (8 ≤ [97, 98, 0, 1, 2, 3, 4, 5].length ∧ [97, 98, 0, 1, 2, 3, 4, 5].length < 2 ^ 64 ∧
      TerminatedAt [97, 98, 0, 1, 2, 3, 4, 5] 2 ∧ 2 < 8 ∧
      TerminatedAt [99, 100, 0] 2 ∧ 2 < 3 ∧ 3 < 2 ^ 64 ∧
      TerminatedAt [101, 102, 0] 2 ∧ 2 < 3 ∧ 3 < 2 ^ 64 ∧
      TerminatedAt [99, 100, 101, 102, 0] (2 + 2) ∧ 2 + 2 < 5 ∧ 5 < 2 ^ 64 ∧
      (∀ j, j < 2 → [99, 100, 101, 102, 0][j]? = [99, 100, 0][j]?) ∧
      (∀ j, j < 2 → [99, 100, 101, 102, 0][2 + j]? = [101, 102, 0][j]?) ∧
      2 + 2 + 2 < 8) ∧
    (∃ d1 d2,
      strncat_safe_ 64 (some [97, 98, 0, 1, 2, 3, 4, 5]) 8 (some [99, 100, 0]) 3 (2 ^ 64 - 1)
        "overflow" "htslib.c" 100 = Outcome.ok d1 ∧
      strncat_safe_ 64 (some d1) 8 (some [101, 102, 0]) 3 (2 ^ 64 - 1)
        "overflow" "htslib.c" 100 = Outcome.ok d2) ∧
    strncat_safe_ 64 (some [97, 98, 0, 1, 2, 3, 4, 5]) 8 (some [99, 100, 101, 102, 0]) 5
      (2 ^ 64 - 1) "overflow" "htslib.c" 100 = Outcome.ok [97, 98, 99, 100, 101, 102, 0, 5] :=
  have hC : 8 ≤ [97, 98, 0, 1, 2, 3, 4, 5].length := by decide
  have hsize : [97, 98, 0, 1, 2, 3, 4, 5].length < 2 ^ 64 := by decide
  have hd : TerminatedAt [97, 98, 0, 1, 2, 3, 4, 5] 2 := by decide
  have ha : TerminatedAt [99, 100, 0] 2 := by decide
  have hb : TerminatedAt [101, 102, 0] 2 := by decide
  have hc : TerminatedAt [99, 100, 101, 102, 0] (2 + 2) := by decide
  have hcap : 3 < 2 ^ 64 := by decide
  have hcap2 : 5 < 2 ^ 64 := by decide
  have hc1 : ∀ j, j < 2 → [99, 100, 101, 102, 0][j]? = [99, 100, 0][j]? := by decide
  have hc2 : ∀ j, j < 2 → [99, 100, 101, 102, 0][2 + j]? = [101, 102, 0][j]? := by decide
  have hfit : 2 + 2 + 2 < 8 := by decide
  have h := appends_compose 64 [97, 98, 0, 1, 2, 3, 4, 5] [99, 100, 0] [101, 102, 0]
    [99, 100, 101, 102, 0] 8 3 3 5 2 2 2 "overflow" "htslib.c" 100
    hC hsize hd (Nat.lt_of_sub_eq_succ rfl) ha (Nat.lt_succ_self 2) hcap
    hb (Nat.lt_succ_self 2) hcap hc (Nat.lt_succ_self 4) hcap2 hc1 hc2
  ⟨⟨hC, hsize, hd, Nat.lt_of_sub_eq_succ rfl, ha, Nat.lt_succ_self 2, hcap, hb,
     Nat.lt_succ_self 2, hcap, hc, Nat.lt_succ_self 4, hcap2, hc1, hc2, hfit⟩,
   h.1.2 hfit, by decide⟩

end Htssafe
